import Mathlib

/-!
kevin-tablet-mode: posture detection

A shallow embedding of `kevin-tablet-mode.c`, in two parts.

* Exact part.  The decisions of the program compare a `double` with integer
  constants, and such a comparison is exact.  For the classifier, the bootstrap
  and the transitions a `double` is therefore an element of any linearly
  ordered field `K` (`K = ℚ` evaluates).  The geometry of the estimator
  (direction, aligned vectors, scale invariance) is stated over the reals:
  `double complex` is `ℂ`, `creal`/`cimag` are `.re`/`.im`, `atan2` is the
  principal argument.
* IEEE part (namespace `IEEE`).  What the filter and the estimator compute to
  the last bit depends on rounding and on the sign of zero.  There every
  arithmetic operation is rounded to the nearest double, a double carries its
  sign bit, and the libm functions `cabs` and `atan2` are a parameter of
  `sample_angle`, of which only the zero cases, the range and the oddness of
  `atan2` are used.

The sensors are outside the program: `sample_angle` takes the two vectors
that `accel_read` returned, and the polling loops take the list of the
outcomes of their successive `sample_angle` calls (`none` for a non-zero
return, `some angle` for a zero return that wrote `angle`).
-/

namespace KevinTabletMode

/-! ## Mode classifier and state machine -/

/-- The C `enum mode_t`. -/
inductive mode_t where
  | LAPTOP_MODE
  | TABLET_MODE
  deriving DecidableEq

open mode_t

section StateMachine

variable {K : Type} [LinearOrderedField K]

/-- The C `#define IIR_COEF 0.2`. -/
def IIR_COEF : K := 0.2

/-- The C `const double sub_iir = 1.0 - IIR_COEF`. -/
def sub_iir : K := 1.0 - IIR_COEF

/-- The C `is_laptop`: `angle > -20 && angle < 160`. -/
def is_laptop (angle : K) : Bool :=
  decide (angle > -20) && decide (angle < 160)

/-- The C `is_tablet`: `angle > 170 || angle < 20`. -/
def is_tablet (angle : K) : Bool :=
  decide (angle > 170) || decide (angle < 20)

/-- What a returning call of `wait_for_mode_change` leaves behind: the index
of the loop iteration (tick) in which it returned, the mode it returned, and
the value of its local `angle_avg` at that moment. -/
structure mode_change (K : Type) where
  tick : ℕ
  mode : mode_t
  angle_avg : K

/-- Moves a result one tick later: the result of the rest of the loop, seen
from one iteration earlier. -/
def mode_change.later (r : mode_change K) : mode_change K :=
  { r with tick := r.tick + 1 }

/-- The `while (1)` loop of the C `wait_for_mode_change`, run on the outcomes
of its successive `sample_angle` calls, from a given value of the local
`angle_avg`.  `none`: the loop has consumed every listed tick and is still
running. -/
def wait_loop (current_mode : mode_t) : K → List (Option K) → Option (mode_change K)
  | _, [] => none
  | angle_avg, none :: rest => (wait_loop current_mode angle_avg rest).map mode_change.later
  | angle_avg, some angle :: rest =>
    let angle_avg := if angle_avg = -1000 then angle else angle_avg
    let angle_avg := IIR_COEF * angle + sub_iir * angle_avg
    match current_mode with
    | LAPTOP_MODE =>
      if is_tablet angle && !is_laptop angle then some ⟨0, TABLET_MODE, angle_avg⟩
      else (wait_loop current_mode angle_avg rest).map mode_change.later
    | TABLET_MODE =>
      if is_laptop angle && !is_tablet angle then some ⟨0, LAPTOP_MODE, angle_avg⟩
      else (wait_loop current_mode angle_avg rest).map mode_change.later

/-- The C `wait_for_mode_change`: the loop entered with `angle_avg = -1000`,
the un-init flag. -/
def wait_for_mode_change (current_mode : mode_t) (ticks : List (Option K)) :
    Option (mode_change K) :=
  wait_loop current_mode (-1000) ticks

/-- The "determine initial state" loop of the C `main`, run on the outcomes of
its successive `sample_angle` calls: the index of the iteration that breaks out
of the loop and the mode it sets.  `none`: still polling. -/
def main_initial_state : List (Option K) → Option (ℕ × mode_t)
  | [] => none
  | none :: rest => (main_initial_state rest).map (fun r => (r.1 + 1, r.2))
  | some angle :: rest =>
    if is_laptop angle && !is_tablet angle then some (0, LAPTOP_MODE)
    else if is_tablet angle && !is_laptop angle then some (0, TABLET_MODE)
    else (main_initial_state rest).map (fun r => (r.1 + 1, r.2))

/-- The loop of the C `wait_for_mode_change` with the macro `IIR_COEF` turned
into a parameter. -/
def wait_loop_coef (iir_coef : K) (current_mode : mode_t) :
    K → List (Option K) → Option (mode_change K)
  | _, [] => none
  | angle_avg, none :: rest =>
    (wait_loop_coef iir_coef current_mode angle_avg rest).map mode_change.later
  | angle_avg, some angle :: rest =>
    let angle_avg := if angle_avg = -1000 then angle else angle_avg
    let angle_avg := iir_coef * angle + (1.0 - iir_coef) * angle_avg
    match current_mode with
    | LAPTOP_MODE =>
      if is_tablet angle && !is_laptop angle then some ⟨0, TABLET_MODE, angle_avg⟩
      else (wait_loop_coef iir_coef current_mode angle_avg rest).map mode_change.later
    | TABLET_MODE =>
      if is_laptop angle && !is_tablet angle then some ⟨0, LAPTOP_MODE, angle_avg⟩
      else (wait_loop_coef iir_coef current_mode angle_avg rest).map mode_change.later

/-! ### Vocabulary of the specification -/

/-- The transition decision in the words of the specification, on the raw
angles alone: skip a rejected tick; on an accepted one evaluate the transition
predicate of the current mode and, if it is satisfied, return the new mode. -/
def transition_decision (current_mode : mode_t) : List (Option K) → Option (ℕ × mode_t)
  | [] => none
  | none :: rest => (transition_decision current_mode rest).map (fun r => (r.1 + 1, r.2))
  | some angle :: rest =>
    match current_mode with
    | LAPTOP_MODE =>
      if is_tablet angle && !is_laptop angle then some (0, TABLET_MODE)
      else (transition_decision current_mode rest).map (fun r => (r.1 + 1, r.2))
    | TABLET_MODE =>
      if is_laptop angle && !is_tablet angle then some (0, LAPTOP_MODE)
      else (transition_decision current_mode rest).map (fun r => (r.1 + 1, r.2))

/-- The mode that is not `m`. -/
def opposite : mode_t → mode_t
  | LAPTOP_MODE => TABLET_MODE
  | TABLET_MODE => LAPTOP_MODE

/-- The band predicate that belongs to a mode. -/
def band : mode_t → K → Bool
  | LAPTOP_MODE => is_laptop
  | TABLET_MODE => is_tablet

/-- The transition rule in the words of the specification: the sample
satisfies the opposite mode's band and fails the current mode's band. -/
def leaves (current_mode : mode_t) (angle : K) : Prop :=
  band (opposite current_mode) angle = true ∧ band current_mode angle = false

end StateMachine

/-! ## Angle estimator -/

section Estimator

/-- The C `#define SKEW_LIMIT 1`. -/
def SKEW_LIMIT : ℝ := 1

/-- The C `cdet`: `creal(a) * cimag(b) - cimag(a) * creal(b)`. -/
def cdet (a b : ℂ) : ℝ :=
  a.re * b.im - a.im * b.re

/-- The C `cdot`: `creal(a) * creal(b) + cimag(a) * cimag(b)`. -/
def cdot (a b : ℂ) : ℝ :=
  a.re * b.re + a.im * b.im

/-- The libm `atan2 (y, x)` over the reals: the principal argument of the point
`(x, y)`, in (-π, π], and 0 at the origin. -/
noncomputable def atan2 (y x : ℝ) : ℝ :=
  Complex.arg ⟨x, y⟩

/-- The C `sample_angle`, on the two vectors that `accel_read` returned for the
base and the lid.  `angle` is the content of the out-parameter before the call;
the result is the `int` returned and the content of the out-parameter after
the call. -/
noncomputable def sample_angle (v_base v_lid : ℂ) (angle : ℝ) : ℤ × ℝ :=
  let m_base := Complex.abs v_base
  let m_lid := Complex.abs v_lid
  if m_base < SKEW_LIMIT ∨ m_lid < SKEW_LIMIT then (-1, angle)
  else if m_base > 10 + SKEW_LIMIT ∨ m_lid > 10 + SKEW_LIMIT then (-1, angle)
  else
    let v_base := v_base / (m_base : ℂ)
    let v_lid := v_lid / (m_lid : ℂ)
    (0, atan2 (cdet v_lid v_base) (cdot v_lid v_base) * 180 / Real.pi)

/-! ### Vocabulary of the specification -/

/-- The unit vector in the direction of `v`. -/
noncomputable def normalize (v : ℂ) : ℂ :=
  v / (Complex.abs v : ℂ)

/-- The signed rotation from `a` to `b` in the words of the specification:
`atan2 (cross (a, b), dot (a, b))` in degrees on the normalised vectors, where
`cross (a, b) = a_y * b_z - a_z * b_y`. -/
noncomputable def signed_rotation (a b : ℂ) : ℝ :=
  atan2 ((normalize a).re * (normalize b).im - (normalize a).im * (normalize b).re)
      ((normalize a).re * (normalize b).re + (normalize a).im * (normalize b).im)
    * 180 / Real.pi

/-- The vector `v` of the (y, z) plane rotated by `deg` degrees. -/
noncomputable def rotate (deg : ℝ) (v : ℂ) : ℂ :=
  ⟨v.re * Real.cos (deg * Real.pi / 180) - v.im * Real.sin (deg * Real.pi / 180),
    v.re * Real.sin (deg * Real.pi / 180) + v.im * Real.cos (deg * Real.pi / 180)⟩

end Estimator

/-! ## IEEE 754 double arithmetic

The values that the smoothing filter and the angle estimator compute depend on
the rounding of `double` arithmetic and on the sign of zero.  This part embeds
the same C functions with every arithmetic operation rounded to the nearest
double, ties to even (the default rounding of IEEE 754 binary64, subnormal
numbers included, overflow left out: the values at hand are far below it).
Each product, sum, difference and quotient of the C source is one rounded
operation; no operation is fused. -/

namespace IEEE

section Rounding

variable {K : Type} [LinearOrderedField K] [FloorRing K]

/-- Rounding to the nearest integer, ties to the even one. -/
def round_half_even (y : K) : ℤ :=
  if y - (⌊y⌋ : K) < 1 / 2 then ⌊y⌋
  else if 1 / 2 < y - (⌊y⌋ : K) then ⌊y⌋ + 1
  else if ⌊y⌋ % 2 = 0 then ⌊y⌋ else ⌊y⌋ + 1

/-- The spacing of the doubles around `x`: 53 significant bits in the binade of
`x`, and the fixed spacing `2 ^ (-1074)` of the subnormal numbers below. -/
def ulp (x : K) : K :=
  (2 : K) ^ (max (Int.log 2 |x| - 52) (-1074))

/-- The double nearest to `x`, ties to even: what a `double` operation stores
when its exact result is `x`. -/
def fl (x : K) : K :=
  (round_half_even (x / ulp x) : K) * ulp x

end Rounding

section Filter

variable {K : Type} [LinearOrderedField K] [FloorRing K]

/-- The C `#define IIR_COEF 0.2`: the double that the literal denotes. -/
def IIR_COEF : K := fl 0.2

/-- The C `const double sub_iir = 1.0 - IIR_COEF`, a `double` subtraction. -/
def sub_iir : K := fl (1.0 - IIR_COEF)

/-- Line 199 of the C source, `IIR_COEF * angle + sub_iir * angle_avg`, in
`double` arithmetic: two rounded products and their rounded sum. -/
def iir_step (angle_avg angle : K) : K :=
  fl (fl (IIR_COEF * angle) + fl (sub_iir * angle_avg))

/-- Where a call of `wait_for_mode_change` stands after some ticks: it has
returned (tick, mode, and its local `angle_avg` at the return), or it is still
in its loop with the given `angle_avg`. -/
inductive call_state (K : Type) where
  | returned (r : mode_change K)
  | running (angle_avg : K)

/-- The local `angle_avg` of the call, at the return or now. -/
def call_state.angle_avg : call_state K → K
  | call_state.returned r => r.angle_avg
  | call_state.running angle_avg => angle_avg

/-- Moves a state one tick later: the state of the rest of the loop, seen from
one iteration earlier. -/
def call_state.later : call_state K → call_state K
  | call_state.returned r => call_state.returned r.later
  | call_state.running angle_avg => call_state.running angle_avg

/-- The `while (1)` loop of the C `wait_for_mode_change` in `double`
arithmetic, run on the outcomes of its successive `sample_angle` calls from a
given value of the local `angle_avg`. -/
def wait_loop (current_mode : mode_t) : K → List (Option K) → call_state K
  | angle_avg, [] => call_state.running angle_avg
  | angle_avg, none :: rest => (wait_loop current_mode angle_avg rest).later
  | angle_avg, some angle :: rest =>
    let angle_avg := if angle_avg = -1000 then angle else angle_avg
    let angle_avg := fl (fl (IIR_COEF * angle) + fl (sub_iir * angle_avg))
    match current_mode with
    | LAPTOP_MODE =>
      if is_tablet angle && !is_laptop angle then
        call_state.returned ⟨0, TABLET_MODE, angle_avg⟩
      else (wait_loop current_mode angle_avg rest).later
    | TABLET_MODE =>
      if is_laptop angle && !is_tablet angle then
        call_state.returned ⟨0, LAPTOP_MODE, angle_avg⟩
      else (wait_loop current_mode angle_avg rest).later

/-- The C `wait_for_mode_change` in `double` arithmetic: the loop entered with
`angle_avg = -1000`, the un-init flag. -/
def wait_for_mode_change (current_mode : mode_t) (ticks : List (Option K)) : call_state K :=
  wait_loop current_mode (-1000) ticks

/-- The first `n` iterations of the final `while (1)` of the C `main`:
`mode = wait_for_mode_change(mode)`, each call on the ticks the calls before it
have left.  The list of what the calls returned, in order; it stops where a
call is still in its loop at the end of the listed ticks. -/
def main_loop : ℕ → mode_t → List (Option K) → List (mode_change K)
  | 0, _, _ => []
  | n + 1, mode, ticks =>
    match wait_for_mode_change mode ticks with
    | call_state.running _ => []
    | call_state.returned r => r :: main_loop n r.mode (ticks.drop (r.tick + 1))

end Filter

section Estimator

variable {K : Type} [LinearOrderedField K] [FloorRing K]

/-- A finite `double`: its sign bit and its magnitude, so that zero has a
sign. -/
structure dbl (K : Type) where
  sign : Bool
  mag : K

/-- The number a double stands for. -/
def dbl.val (d : dbl K) : K :=
  if d.sign then -d.mag else d.mag

/-- The double of a number that is one (positive zero for 0). -/
def dbl.ofVal (x : K) : dbl K :=
  ⟨decide (x < 0), |x|⟩

/-- Unary minus: the sign bit flipped. -/
def dbl.neg (d : dbl K) : dbl K :=
  ⟨!d.sign, d.mag⟩

/-- The `double` product: the signs combined, the magnitude rounded. -/
def dbl.mul (a b : dbl K) : dbl K :=
  ⟨xor a.sign b.sign, fl (a.mag * b.mag)⟩

/-- The `double` quotient: the signs combined, the magnitude rounded. -/
def dbl.div (a b : dbl K) : dbl K :=
  ⟨xor a.sign b.sign, fl (a.mag / b.mag)⟩

/-- The `double` sum.  An exact sum of zero is `-0` only if both terms are
negative, and `+0` otherwise (rounding to nearest). -/
def dbl.add (a b : dbl K) : dbl K :=
  if a.val + b.val = 0 then ⟨a.sign && b.sign, 0⟩
  else ⟨decide (a.val + b.val < 0), fl |a.val + b.val|⟩

/-- The `double` difference `a - b`, which is `a + (-b)`. -/
def dbl.sub (a b : dbl K) : dbl K :=
  a.add b.neg

/-- The `M_PI` of `math.h`: the double that the literal denotes. -/
def M_PI : K := fl 3.14159265358979323846

/-- The C `#define SKEW_LIMIT 1`. -/
def SKEW_LIMIT : K := 1

/-- The two libm functions that `sample_angle` calls, which are not part of the
program: `cabs` on the real and imaginary part of its argument, and
`atan2 (y, x)`. -/
structure libm (K : Type) where
  cabs : dbl K × dbl K → K
  atan2 : dbl K → dbl K → dbl K

/-- What is used of `atan2`: the zero cases of Annex F of the C standard
(`atan2 (±0, x)` is `±π` for `x < 0` and for `x = -0`, and `±0` for `x > 0` and
for `x = +0`), a result of magnitude at most `M_PI`, and
`atan2 (-y, x) = -atan2 (y, x)`. -/
def libm.conforms (L : libm K) : Prop :=
  (∀ y x : dbl K, y.val = 0 → (x.val < 0 ∨ (x.val = 0 ∧ x.sign = true)) →
    L.atan2 y x = ⟨y.sign, M_PI⟩) ∧
  (∀ y x : dbl K, y.val = 0 → (0 < x.val ∨ (x.val = 0 ∧ x.sign = false)) →
    L.atan2 y x = ⟨y.sign, 0⟩) ∧
  (∀ y x : dbl K, 0 ≤ (L.atan2 y x).mag ∧ (L.atan2 y x).mag ≤ M_PI) ∧
  (∀ y x : dbl K, L.atan2 y.neg x = (L.atan2 y x).neg)

/-- The C `cdet` in `double` arithmetic:
`creal(a) * cimag(b) - cimag(a) * creal(b)`. -/
def cdet (a b : dbl K × dbl K) : dbl K :=
  (a.1.mul b.2).sub (a.2.mul b.1)

/-- The C `cdot` in `double` arithmetic:
`creal(a) * creal(b) + cimag(a) * cimag(b)`. -/
def cdot (a b : dbl K × dbl K) : dbl K :=
  (a.1.mul b.1).add (a.2.mul b.2)

/-- The normalisation of `sample_angle`, `v = v / m` with `m = cabs (v)`: each
part divided by the magnitude that `cabs` returned. -/
def normalize (L : libm K) (v : dbl K × dbl K) : dbl K × dbl K :=
  (v.1.div (dbl.ofVal (L.cabs v)), v.2.div (dbl.ofVal (L.cabs v)))

/-- The C `sample_angle` in `double` arithmetic, on the two vectors (real part,
imaginary part) that `accel_read` returned for the base and the lid.  `angle`
is the content of the out-parameter before the call; the result is the `int`
returned and the content of the out-parameter after the call.  A complex
number is divided by a real one part by part. -/
def sample_angle (L : libm K) (v_base v_lid : dbl K × dbl K) (angle : dbl K) : ℤ × dbl K :=
  let m_base := L.cabs v_base
  let m_lid := L.cabs v_lid
  if m_base < SKEW_LIMIT ∨ m_lid < SKEW_LIMIT then (-1, angle)
  else if m_base > 10 + SKEW_LIMIT ∨ m_lid > 10 + SKEW_LIMIT then (-1, angle)
  else
    let v_base := (v_base.1.div (dbl.ofVal m_base), v_base.2.div (dbl.ofVal m_base))
    let v_lid := (v_lid.1.div (dbl.ofVal m_lid), v_lid.2.div (dbl.ofVal m_lid))
    (0, ((L.atan2 (cdet v_lid v_base) (cdot v_lid v_base)).mul (dbl.ofVal 180)).div
      (dbl.ofVal M_PI))

/-- A libm that rounds correctly: `cabs` is the Euclidean magnitude rounded,
`atan2` is the principal argument rounded, with the zero cases of Annex F. -/
noncomputable def libm_rn : libm ℝ where
  cabs := fun v => fl (Real.sqrt (v.1.val ^ 2 + v.2.val ^ 2))
  atan2 := fun y x =>
    if y.val = 0 then
      if x.val < 0 ∨ (x.val = 0 ∧ x.sign = true) then ⟨y.sign, M_PI⟩ else ⟨y.sign, 0⟩
    else ⟨decide (y.val < 0), fl |Complex.arg ⟨x.val, y.val⟩|⟩

end Estimator

end IEEE

/-! ## Lemmas on the state machine -/

section StateMachineLemmas

variable {K : Type} [LinearOrderedField K]

lemma is_laptop_iff (angle : K) : is_laptop angle = true ↔ -20 < angle ∧ angle < 160 := by
  simp [is_laptop]

lemma is_tablet_iff (angle : K) : is_tablet angle = true ↔ 170 < angle ∨ angle < 20 := by
  simp [is_tablet]

lemma wait_loop_nil (M : mode_t) (avg : K) : wait_loop M avg [] = none := rfl

lemma wait_loop_rejected (M : mode_t) (avg : K) (rest : List (Option K)) :
    wait_loop M avg (none :: rest) = (wait_loop M avg rest).map mode_change.later := rfl

/-- One accepted sample, in the vocabulary of the specification. -/
lemma wait_loop_accepted (M : mode_t) (avg a : K) (rest : List (Option K)) :
    wait_loop M avg (some a :: rest) =
      if band (opposite M) a = true ∧ band M a = false then
        some ⟨0, opposite M, IIR_COEF * a + sub_iir * (if avg = -1000 then a else avg)⟩
      else
        (wait_loop M (IIR_COEF * a + sub_iir * (if avg = -1000 then a else avg)) rest).map
          mode_change.later := by
  cases M <;> simp [wait_loop, band, opposite]

omit [LinearOrderedField K] in
lemma map_later_eq_some (o : Option (mode_change K)) (i : ℕ) (m : mode_t) (avg : K) :
    o.map mode_change.later = some ⟨i, m, avg⟩ ↔ ∃ k, i = k + 1 ∧ o = some ⟨k, m, avg⟩ := by
  cases o with
  | none => simp
  | some r =>
    obtain ⟨t, m', avg'⟩ := r
    simp only [Option.map_some', mode_change.later, Option.some.injEq, mode_change.mk.injEq]
    constructor
    · rintro ⟨rfl, rfl, rfl⟩
      exact ⟨t, rfl, rfl, rfl, rfl⟩
    · rintro ⟨k, rfl, rfl, rfl, rfl⟩
      exact ⟨rfl, rfl, rfl⟩

/-- The loop returns in tick `i` with mode `m` exactly when `m` is the opposite
mode and tick `i` is the first accepted sample that leaves the current mode. -/
lemma wait_loop_returns_iff (M : mode_t) (ticks : List (Option K)) :
    ∀ (avg : K) (i : ℕ) (m : mode_t),
      (∃ avg', wait_loop M avg ticks = some ⟨i, m, avg'⟩) ↔
        (m = opposite M ∧ ∃ a, ticks[i]? = some (some a) ∧ leaves M a ∧
          ∀ j b, j < i → ticks[j]? = some (some b) → ¬ leaves M b) := by
  induction ticks with
  | nil => intro avg i m; simp [wait_loop_nil]
  | cons t rest ih =>
    intro avg i m
    cases t with
    | none =>
      rw [wait_loop_rejected]
      simp only [map_later_eq_some]
      cases i with
      | zero => simp
      | succ k =>
        have h := ih avg k m
        constructor
        · rintro ⟨avg', k', hk, hw⟩
          obtain rfl : k = k' := by omega
          obtain ⟨hm, a, ha, hl, hfirst⟩ := h.1 ⟨avg', hw⟩
          refine ⟨hm, a, by simpa using ha, hl, ?_⟩
          intro j b hj hb
          cases j with
          | zero => simp at hb
          | succ j => exact hfirst j b (by omega) (by simpa using hb)
        · rintro ⟨hm, a, ha, hl, hfirst⟩
          obtain ⟨avg', hw⟩ := h.2 ⟨hm, a, by simpa using ha, hl, fun j b hj hb =>
            hfirst (j + 1) b (by omega) (by simpa using hb)⟩
          exact ⟨avg', k, rfl, hw⟩
    | some x =>
      rw [wait_loop_accepted]
      by_cases hx : band (opposite M) x = true ∧ band M x = false
      · rw [if_pos hx]
        cases i with
        | zero =>
          constructor
          · rintro ⟨avg', h⟩
            simp only [Option.some.injEq, mode_change.mk.injEq] at h
            exact ⟨h.2.1.symm, x, by simp, hx, fun j b hj => absurd hj (by omega)⟩
          · rintro ⟨hm, -⟩
            exact ⟨_, by rw [hm]⟩
        | succ k =>
          constructor
          · rintro ⟨avg', h⟩
            simp at h
          · rintro ⟨-, a, -, -, hfirst⟩
            exact absurd hx (hfirst 0 x (by omega) (by simp))
      · rw [if_neg hx]
        simp only [map_later_eq_some]
        cases i with
        | zero =>
          constructor
          · rintro ⟨avg', k, hk, -⟩
            omega
          · rintro ⟨-, a, ha, hl, -⟩
            simp only [List.getElem?_cons_zero, Option.some.injEq] at ha
            subst ha
            exact absurd hl hx
        | succ k =>
          have h := ih (IIR_COEF * x + sub_iir * (if avg = -1000 then x else avg)) k m
          constructor
          · rintro ⟨avg', k', hk, hw⟩
            obtain rfl : k = k' := by omega
            obtain ⟨hm, a, ha, hl, hfirst⟩ := h.1 ⟨avg', hw⟩
            refine ⟨hm, a, by simpa using ha, hl, ?_⟩
            intro j b hj hb
            cases j with
            | zero =>
              simp only [List.getElem?_cons_zero, Option.some.injEq] at hb
              subst hb
              exact hx
            | succ j => exact hfirst j b (by omega) (by simpa using hb)
          · rintro ⟨hm, a, ha, hl, hfirst⟩
            obtain ⟨avg', hw⟩ := h.2 ⟨hm, a, by simpa using ha, hl, fun j b hj hb =>
              hfirst (j + 1) b (by omega) (by simpa using hb)⟩
            exact ⟨avg', k, rfl, hw⟩

omit [LinearOrderedField K] in
lemma map_forget_later (o : Option (mode_change K)) :
    (o.map mode_change.later).map (fun r => (r.mode, r.angle_avg)) =
      o.map (fun r => (r.mode, r.angle_avg)) := by
  cases o <;> rfl

/-- Rejected samples change nothing: dropping them from the tick list changes
neither the mode returned nor the running average at the return. -/
lemma wait_loop_filterMap (M : mode_t) (ticks : List (Option K)) :
    ∀ avg : K,
      (wait_loop M avg ticks).map (fun r => (r.mode, r.angle_avg)) =
        (wait_loop M avg ((ticks.filterMap id).map some)).map (fun r => (r.mode, r.angle_avg)) := by
  induction ticks with
  | nil => intro avg; rfl
  | cons t rest ih =>
    intro avg
    cases t with
    | none =>
      have h : (none :: rest).filterMap id = rest.filterMap id := rfl
      rw [wait_loop_rejected, h, ← ih avg, map_forget_later]
    | some x =>
      have h : (some x :: rest).filterMap id = x :: rest.filterMap id := rfl
      rw [h, List.map_cons, wait_loop_accepted, wait_loop_accepted]
      by_cases hx : band (opposite M) x = true ∧ band M x = false
      · rw [if_pos hx, if_pos hx]
      · rw [if_neg hx, if_neg hx, map_forget_later, map_forget_later]
        exact ih _

lemma main_initial_state_rejected (rest : List (Option K)) :
    main_initial_state (none :: rest) =
      (main_initial_state rest).map (fun r => (r.1 + 1, r.2)) := rfl

/-- One accepted sample of the bootstrap: a sample on which the two bands agree
(both true or both false) is discarded, any other settles the mode. -/
lemma main_initial_state_accepted (a : K) (rest : List (Option K)) :
    main_initial_state (some a :: rest) =
      if is_laptop a = is_tablet a then
        (main_initial_state rest).map (fun r => (r.1 + 1, r.2))
      else some (0, if is_laptop a = true then LAPTOP_MODE else TABLET_MODE) := by
  cases h1 : is_laptop a <;> cases h2 : is_tablet a <;> simp [main_initial_state, h1, h2]

omit [LinearOrderedField K] in
lemma map_shift_eq_some (o : Option (ℕ × mode_t)) (i : ℕ) (m : mode_t) :
    o.map (fun r => (r.1 + 1, r.2)) = some (i, m) ↔ ∃ k, i = k + 1 ∧ o = some (k, m) := by
  cases o with
  | none => simp
  | some r =>
    obtain ⟨t, m'⟩ := r
    simp only [Option.map_some', Option.some.injEq, Prod.mk.injEq]
    constructor
    · rintro ⟨rfl, rfl⟩
      exact ⟨t, rfl, rfl, rfl⟩
    · rintro ⟨k, rfl, rfl, rfl⟩
      exact ⟨rfl, rfl⟩

/-- A sample that satisfies one mode's band and fails the other's is one on
which the bands differ. -/
lemma band_differ (m : mode_t) (a : K) (h1 : band m a = true)
    (h2 : band (opposite m) a = false) : ¬ is_laptop a = is_tablet a := by
  cases m <;> simp only [band, opposite] at h1 h2 <;> rw [h1, h2] <;> decide

/-- On a sample on which the bands differ, the mode whose band holds and whose
opposite band fails is Laptop when `is_laptop` holds and Tablet otherwise. -/
lemma band_of_differ (m : mode_t) (a : K) (h : ¬ is_laptop a = is_tablet a) :
    (band m a = true ∧ band (opposite m) a = false) ↔
      m = if is_laptop a = true then LAPTOP_MODE else TABLET_MODE := by
  revert h
  cases m <;> simp only [band, opposite] <;>
    generalize is_laptop a = p <;> generalize is_tablet a = q <;>
    cases p <;> cases q <;> simp

/-- The bootstrap settles in iteration `i` on mode `m` exactly when sample `i`
is the first accepted sample on which the bands differ, and `m` is the mode
whose band it satisfies. -/
lemma main_initial_state_eq_some_iff (ticks : List (Option K)) :
    ∀ (i : ℕ) (m : mode_t),
      main_initial_state ticks = some (i, m) ↔
        ∃ a, ticks[i]? = some (some a) ∧ band m a = true ∧ band (opposite m) a = false ∧
          ∀ j b, j < i → ticks[j]? = some (some b) → is_laptop b = is_tablet b := by
  induction ticks with
  | nil => intro i m; simp [main_initial_state]
  | cons t rest ih =>
    intro i m
    have step : ∀ k, (∃ a, rest[k]? = some (some a) ∧ band m a = true ∧
          band (opposite m) a = false ∧
          ∀ j b, j < k → rest[j]? = some (some b) → is_laptop b = is_tablet b) →
        ∀ j b, j < k + 1 → (t :: rest)[j]? = some (some b) →
          (∀ x, t = some x → is_laptop x = is_tablet x) → is_laptop b = is_tablet b := by
      rintro k ⟨a, -, -, -, hfirst⟩ j b hj hb ht
      cases j with
      | zero => exact ht b (by simpa using hb)
      | succ j => exact hfirst j b (by omega) (by simpa using hb)
    cases t with
    | none =>
      rw [main_initial_state_rejected, map_shift_eq_some]
      cases i with
      | zero => simp
      | succ k =>
        constructor
        · rintro ⟨k', hk, hw⟩
          obtain rfl : k = k' := by omega
          obtain ⟨a, ha, h1, h2, -⟩ := (ih k m).1 hw
          exact ⟨a, by simpa using ha, h1, h2, fun j b hj hb =>
            step k ((ih k m).1 hw) j b hj hb (by simp)⟩
        · rintro ⟨a, ha, h1, h2, hfirst⟩
          exact ⟨k, rfl, (ih k m).2 ⟨a, by simpa using ha, h1, h2, fun j b hj hb =>
            hfirst (j + 1) b (by omega) (by simpa using hb)⟩⟩
    | some x =>
      rw [main_initial_state_accepted]
      by_cases hx : is_laptop x = is_tablet x
      · rw [if_pos hx, map_shift_eq_some]
        cases i with
        | zero =>
          constructor
          · rintro ⟨k, hk, -⟩
            omega
          · rintro ⟨a, ha, h1, h2, -⟩
            simp only [List.getElem?_cons_zero, Option.some.injEq] at ha
            subst ha
            exact absurd hx (band_differ m x h1 h2)
        | succ k =>
          constructor
          · rintro ⟨k', hk, hw⟩
            obtain rfl : k = k' := by omega
            obtain ⟨a, ha, h1, h2, -⟩ := (ih k m).1 hw
            exact ⟨a, by simpa using ha, h1, h2, fun j b hj hb =>
              step k ((ih k m).1 hw) j b hj hb (fun y hy => by cases hy; exact hx)⟩
          · rintro ⟨a, ha, h1, h2, hfirst⟩
            exact ⟨k, rfl, (ih k m).2 ⟨a, by simpa using ha, h1, h2, fun j b hj hb =>
              hfirst (j + 1) b (by omega) (by simpa using hb)⟩⟩
      · rw [if_neg hx]
        cases i with
        | zero =>
          constructor
          · intro h
            simp only [Option.some.injEq, Prod.mk.injEq, true_and] at h
            obtain ⟨h1, h2⟩ := (band_of_differ m x hx).2 h.symm
            exact ⟨x, by simp, h1, h2, fun j b hj => absurd hj (by omega)⟩
          · rintro ⟨a, ha, h1, h2, -⟩
            simp only [List.getElem?_cons_zero, Option.some.injEq] at ha
            subst ha
            rw [(band_of_differ m x hx).1 ⟨h1, h2⟩]
        | succ k =>
          constructor
          · intro h
            simp at h
          · rintro ⟨a, -, -, -, hfirst⟩
            exact absurd (hfirst 0 x (by omega) (by simp)) hx

end StateMachineLemmas

/-! ## The claims on the state machine -/

section StateMachineClaims

/-- C1: steady-state transition rule.  For every current mode `M` and every
finite list of tick outcomes, `wait_for_mode_change M` returns in tick `i` with
mode `m` exactly when `m` is the opposite mode and tick `i` holds the first
accepted angle that satisfies the opposite mode's band and fails `M`'s band;
dropping the rejected samples changes neither the mode returned nor the running
average; and from Laptop the accepted angles 10, 5, 175, 178, 180 return Tablet
in the third tick (index 2), on 175. -/
theorem wait_for_mode_change_returns_at_first_leaving_sample :
    (∀ (K : Type) [LinearOrderedField K] (M : mode_t) (ticks : List (Option K))
        (i : ℕ) (m : mode_t),
      (∃ avg, wait_for_mode_change M ticks = some ⟨i, m, avg⟩) ↔
        (m = opposite M ∧ ∃ a, ticks[i]? = some (some a) ∧
          (band (opposite M) a = true ∧ band M a = false) ∧
          ∀ j b, j < i → ticks[j]? = some (some b) →
            ¬(band (opposite M) b = true ∧ band M b = false))) ∧
    (∀ (K : Type) [LinearOrderedField K] (M : mode_t) (ticks : List (Option K)),
      (wait_for_mode_change M ticks).map (fun r => (r.mode, r.angle_avg)) =
        (wait_for_mode_change M ((ticks.filterMap id).map some)).map
          (fun r => (r.mode, r.angle_avg))) ∧
    wait_for_mode_change LAPTOP_MODE [some (10 : ℚ), some 5, some 175, some 178, some 180] =
      some ⟨2, TABLET_MODE, 211 / 5⟩ := by
  refine ⟨?_, ?_, ?_⟩
  · intro K _ M ticks i m
    exact wait_loop_returns_iff M ticks (-1000) i m
  · intro K _ M ticks
    exact wait_loop_filterMap M ticks (-1000)
  · norm_num [wait_for_mode_change, wait_loop, is_tablet, is_laptop, IIR_COEF, sub_iir,
      mode_change.later]

/-- C2: band definitions.  `is_laptop angle` holds iff `angle` is in the open
interval (-20, 160); for `angle` in [-180, 180], `is_tablet angle` holds iff
`angle` is in (170, 180] or in [-180, 20). -/
theorem band_definitions (K : Type) [LinearOrderedField K] (angle : K) :
    (is_laptop angle = true ↔ angle ∈ Set.Ioo (-20 : K) 160) ∧
    (angle ∈ Set.Icc (-180 : K) 180 →
      (is_tablet angle = true ↔ angle ∈ Set.Ioc (170 : K) 180 ∪ Set.Ico (-180 : K) 20)) := by
  constructor
  · simp [is_laptop]
  · rintro ⟨h1, h2⟩
    simp only [is_tablet_iff, Set.mem_union, Set.mem_Ioc, Set.mem_Ico]
    constructor
    · rintro (h | h)
      · exact Or.inl ⟨h, h2⟩
      · exact Or.inr ⟨h1, h⟩
    · rintro (⟨h, -⟩ | ⟨-, h⟩)
      · exact Or.inl h
      · exact Or.inr h

/-- C2 at the angle 175, which lies in [-180, 180] and in the tablet band. -/
theorem band_definitions_witness :
    (175 : ℚ) ∈ Set.Icc (-180 : ℚ) 180 ∧
    (is_tablet (175 : ℚ) = true ↔
      (175 : ℚ) ∈ Set.Ioc (170 : ℚ) 180 ∪ Set.Ico (-180 : ℚ) 20) :=
  ⟨by norm_num, (band_definitions ℚ 175).2 (by norm_num)⟩

/-- C3 as stated fails: at angle 0 the tablet band holds as well (0 < 20), and
a bootstrap whose only sample is 0 has not settled. -/
theorem bands_at_zero_counterexample :
    is_tablet (0 : ℚ) = true ∧ main_initial_state [some (0 : ℚ)] = none ∧
      ¬(is_laptop (0 : ℚ) = true ∧ is_tablet (0 : ℚ) = false) := by
  norm_num [is_tablet, is_laptop, main_initial_state]

/-- C3, amended: at angle 0 the laptop band is true and the tablet band is true
too, so 0 lies in the dead zone and a bootstrap sample of 0 is discarded: the
loop goes on with the next sample. -/
theorem bands_at_zero (K : Type) [LinearOrderedField K] :
    is_laptop (0 : K) = true ∧ is_tablet (0 : K) = true ∧
      ∀ rest : List (Option K),
        main_initial_state (some (0 : K) :: rest) =
          (main_initial_state rest).map (fun r => (r.1 + 1, r.2)) := by
  have h1 : is_laptop (0 : K) = true := by norm_num [is_laptop]
  have h2 : is_tablet (0 : K) = true := by norm_num [is_tablet]
  refine ⟨h1, h2, fun rest => ?_⟩
  rw [main_initial_state_accepted, if_pos (by rw [h1, h2])]

/-- C4 as stated fails: at angle -25 the tablet band holds (-25 < 20). -/
theorem bands_at_minus_25_counterexample :
    is_tablet (-25 : ℚ) = true ∧
      ¬(is_laptop (-25 : ℚ) = false ∧ is_tablet (-25 : ℚ) = false) := by
  norm_num [is_tablet, is_laptop]

/-- C4, amended: at angle -25 the laptop band is false and the tablet band is
true; the angles at which neither band is true are exactly those of
[160, 170]. -/
theorem bands_at_minus_25 (K : Type) [LinearOrderedField K] :
    (is_laptop (-25 : K) = false ∧ is_tablet (-25 : K) = true) ∧
      ∀ angle : K, (is_laptop angle = false ∧ is_tablet angle = false) ↔
        angle ∈ Set.Icc (160 : K) 170 := by
  refine ⟨⟨by norm_num [is_laptop], by norm_num [is_tablet]⟩, fun angle => ?_⟩
  simp only [is_laptop, is_tablet, Bool.and_eq_false_iff, Bool.or_eq_false_iff,
    decide_eq_false_iff_not, not_lt, Set.mem_Icc, gt_iff_lt]
  constructor
  · rintro ⟨h1 | h1, h2, h3⟩
    · linarith
    · exact ⟨h1, h2⟩
  · rintro ⟨h1, h2⟩
    exact ⟨Or.inr h1, h2, by linarith⟩

/-- C5: dead zone.  The angle 15 satisfies both bands; and an accepted sample
at which both bands are true causes no transition: whatever the current mode
and whatever the other ticks, `wait_for_mode_change` does not return in the
tick of that sample, and the startup bootstrap does not settle on it. -/
theorem dead_zone_no_transition (K : Type) [LinearOrderedField K] :
    (is_laptop (15 : K) = true ∧ is_tablet (15 : K) = true) ∧
    ∀ angle : K, is_laptop angle = true → is_tablet angle = true →
      (∀ (M : mode_t) (ticks : List (Option K)) (i : ℕ), ticks[i]? = some (some angle) →
        ∀ r, wait_for_mode_change M ticks = some r → r.tick ≠ i) ∧
      (∀ (ticks : List (Option K)) (i : ℕ), ticks[i]? = some (some angle) →
        ∀ n m, main_initial_state ticks = some (n, m) → n ≠ i) := by
  refine ⟨⟨by norm_num [is_laptop], by norm_num [is_tablet]⟩, ?_⟩
  intro angle hl ht
  constructor
  · intro M ticks i hi r hr hri
    obtain ⟨t, m, avg⟩ := r
    simp only at hri
    subst hri
    obtain ⟨-, a, ha, ⟨h1, h2⟩, -⟩ := (wait_loop_returns_iff M ticks (-1000) t m).1 ⟨avg, hr⟩
    rw [hi] at ha
    simp only [Option.some.injEq] at ha
    subst ha
    cases M <;> simp_all [band, opposite]
  · intro ticks i hi n m hn hni
    subst hni
    obtain ⟨a, ha, h1, h2, -⟩ := (main_initial_state_eq_some_iff ticks n m).1 hn
    rw [hi] at ha
    simp only [Option.some.injEq] at ha
    subst ha
    exact band_differ m angle h1 h2 (by rw [hl, ht])

/-- C5 at the angle 15: both bands hold, and neither loop acts on it. -/
theorem dead_zone_no_transition_witness :
    is_laptop (15 : ℚ) = true ∧ is_tablet (15 : ℚ) = true ∧
      ((∀ (M : mode_t) (ticks : List (Option ℚ)) (i : ℕ), ticks[i]? = some (some 15) →
        ∀ r, wait_for_mode_change M ticks = some r → r.tick ≠ i) ∧
      (∀ (ticks : List (Option ℚ)) (i : ℕ), ticks[i]? = some (some 15) →
        ∀ n m, main_initial_state ticks = some (n, m) → n ≠ i)) :=
  ⟨by norm_num [is_laptop], by norm_num [is_tablet],
    (dead_zone_no_transition ℚ).2 15 (by norm_num [is_laptop]) (by norm_num [is_tablet])⟩

end StateMachineClaims

/-! ## Lemmas on the angle estimator -/

section EstimatorLemmas

/-- The value `sample_angle` writes on a pair it accepts. -/
lemma sample_angle_accepted (v_base v_lid : ℂ) (angle : ℝ)
    (hb1 : 1 ≤ Complex.abs v_base) (hb2 : Complex.abs v_base ≤ 11)
    (hl1 : 1 ≤ Complex.abs v_lid) (hl2 : Complex.abs v_lid ≤ 11) :
    sample_angle v_base v_lid angle =
      (0, atan2 (cdet (v_lid / (Complex.abs v_lid : ℂ)) (v_base / (Complex.abs v_base : ℂ)))
            (cdot (v_lid / (Complex.abs v_lid : ℂ)) (v_base / (Complex.abs v_base : ℂ)))
          * 180 / Real.pi) := by
  have h1 : ¬(Complex.abs v_base < SKEW_LIMIT ∨ Complex.abs v_lid < SKEW_LIMIT) := by
    simp only [SKEW_LIMIT, not_or, not_lt]
    exact ⟨hb1, hl1⟩
  have h2 : ¬(Complex.abs v_base > 10 + SKEW_LIMIT ∨ Complex.abs v_lid > 10 + SKEW_LIMIT) := by
    simp only [SKEW_LIMIT, not_or, not_lt, gt_iff_lt]
    constructor <;> linarith
  simp only [sample_angle, if_neg h1, if_neg h2]

lemma cdet_div (a b : ℂ) (r s : ℝ) :
    cdet (a / (r : ℂ)) (b / (s : ℂ)) = cdet a b / (r * s) := by
  simp only [cdet, Complex.div_ofReal_re, Complex.div_ofReal_im]
  ring

lemma cdot_div (a b : ℂ) (r s : ℝ) :
    cdot (a / (r : ℂ)) (b / (s : ℂ)) = cdot a b / (r * s) := by
  simp only [cdot, Complex.div_ofReal_re, Complex.div_ofReal_im]
  ring

/-- Dividing both arguments of `atan2` by a positive number changes nothing. -/
lemma atan2_div_pos (y x p : ℝ) (hp : 0 < p) : atan2 (y / p) (x / p) = atan2 y x := by
  unfold atan2
  have h : (⟨x / p, y / p⟩ : ℂ) = ((p⁻¹ : ℝ) : ℂ) * ⟨x, y⟩ := by
    apply Complex.ext
    · rw [Complex.re_ofReal_mul]
      exact div_eq_inv_mul x p
    · rw [Complex.im_ofReal_mul]
      exact div_eq_inv_mul y p
  rw [h, Complex.arg_real_mul _ (inv_pos.2 hp)]

/-- On a pair it accepts, `sample_angle` writes the `atan2` of `cdet` and `cdot`
of the vectors as read; the normalisation does not change the value. -/
lemma sample_angle_valid (v_base v_lid : ℂ) (angle : ℝ)
    (hb1 : 1 ≤ Complex.abs v_base) (hb2 : Complex.abs v_base ≤ 11)
    (hl1 : 1 ≤ Complex.abs v_lid) (hl2 : Complex.abs v_lid ≤ 11) :
    sample_angle v_base v_lid angle =
      (0, atan2 (cdet v_lid v_base) (cdot v_lid v_base) * 180 / Real.pi) := by
  rw [sample_angle_accepted v_base v_lid angle hb1 hb2 hl1 hl2, cdet_div, cdot_div,
    atan2_div_pos _ _ _ (mul_pos (by linarith) (by linarith))]

/-- The components of a vector and its magnitude. -/
lemma components_sq (v : ℂ) : v.re * v.re + v.im * v.im = Complex.abs v ^ 2 := by
  rw [Complex.sq_abs, Complex.normSq_apply]

lemma abs_three_four : Complex.abs ⟨3, 4⟩ = 5 := by
  rw [Complex.abs_apply, Complex.normSq_mk,
    show (3 : ℝ) * 3 + 4 * 4 = 5 ^ 2 by norm_num, Real.sqrt_sq (by norm_num)]

/-- The point whose argument `sample_angle` takes has the product of the two
magnitudes as its magnitude. -/
lemma abs_cdot_cdet (l b : ℂ) :
    Complex.abs ⟨cdot l b, cdet l b⟩ = Complex.abs l * Complex.abs b := by
  have h : (⟨cdot l b, cdet l b⟩ : ℂ) = (starRingEnd ℂ) l * b := by
    apply Complex.ext <;> simp [cdot, cdet]
    ring
  rw [h, map_mul, Complex.abs_conj]

/-- Rotating the lid direction by the `atan2` of `cdet (lid, base)` and
`cdot (lid, base)` gives the base direction. -/
lemma rotate_lid_direction (b l : ℂ) (hb : 0 < Complex.abs b) (hl : 0 < Complex.abs l) :
    rotate (atan2 (cdet l b) (cdot l b) * 180 / Real.pi) (normalize l) = normalize b := by
  have hpi : Real.pi ≠ 0 := Real.pi_ne_zero
  have hrad : atan2 (cdet l b) (cdot l b) * 180 / Real.pi * Real.pi / 180 =
      Complex.arg ⟨cdot l b, cdet l b⟩ := by
    unfold atan2
    field_simp
  have hw : (⟨cdot l b, cdet l b⟩ : ℂ) ≠ 0 := by
    intro h
    have h0 := abs_cdot_cdet l b
    rw [h, map_zero] at h0
    exact absurd h0 (ne_of_lt (mul_pos hl hb))
  have hml := components_sq l
  have hb0 : Complex.abs b ≠ 0 := ne_of_gt hb
  have hl0 : Complex.abs l ≠ 0 := ne_of_gt hl
  unfold rotate normalize
  rw [hrad, Complex.cos_arg hw, Complex.sin_arg, abs_cdot_cdet]
  simp only [Complex.div_ofReal_re, Complex.div_ofReal_im, cdot, cdet]
  apply Complex.ext
  · simp only [Complex.div_ofReal_re]
    field_simp
    linear_combination (b.re * Complex.abs b) * hml
  · simp only [Complex.div_ofReal_im]
    field_simp
    linear_combination (b.im * Complex.abs b) * hml

end EstimatorLemmas

/-! ## The claims on the angle estimator -/

section EstimatorClaims

/-- C7 as stated fails: with the base along y, (1, 0), and the lid along z,
(0, 1), the signed rotation from base to lid of the specification is +90, but
`sample_angle` writes -90, and rotating the base direction by -90 degrees does
not give the lid direction. -/
theorem sample_angle_direction_counterexample :
    sample_angle 1 Complex.I 0 = (0, -90) ∧ signed_rotation 1 Complex.I = 90 ∧
      (sample_angle 1 Complex.I 0).2 ≠ signed_rotation 1 Complex.I ∧
      rotate (sample_angle 1 Complex.I 0).2 (normalize 1) ≠ normalize Complex.I := by
  have hpi : Real.pi ≠ 0 := Real.pi_ne_zero
  have n1 : normalize 1 = 1 := by simp [normalize]
  have nI : normalize Complex.I = Complex.I := by simp [normalize]
  have e1 : sample_angle 1 Complex.I 0 = (0, -90) := by
    rw [sample_angle_valid 1 Complex.I 0 (by simp) (by simp) (by simp)
      (by simp)]
    have h : atan2 (cdet Complex.I 1) (cdot Complex.I 1) = -(Real.pi / 2) := by
      unfold atan2
      rw [Complex.arg_eq_neg_pi_div_two_iff]
      norm_num [cdet, cdot]
    rw [h]
    simp only [Prod.mk.injEq, true_and]
    field_simp
    ring
  have e2 : signed_rotation 1 Complex.I = 90 := by
    unfold signed_rotation
    rw [n1, nI]
    have h : atan2 ((1 : ℂ).re * Complex.I.im - (1 : ℂ).im * Complex.I.re)
        ((1 : ℂ).re * Complex.I.re + (1 : ℂ).im * Complex.I.im) = Real.pi / 2 := by
      unfold atan2
      rw [Complex.arg_eq_pi_div_two_iff]
      norm_num
    rw [h]
    field_simp
    ring
  refine ⟨e1, e2, ?_, ?_⟩
  · rw [e1, e2]
    norm_num
  · rw [e1, n1, nI]
    intro h
    have him := congrArg Complex.im h
    have hrad : (-90 : ℝ) * Real.pi / 180 = -(Real.pi / 2) := by ring
    simp only [rotate, hrad, Real.sin_neg, Real.cos_neg, Real.sin_pi_div_two,
      Real.cos_pi_div_two, Complex.one_re, Complex.one_im, Complex.I_im] at him
    norm_num at him

/-- C7, amended: for every pair of vectors of magnitude in [1, 11],
`sample_angle` accepts the pair and the angle it writes is the signed rotation
from lid to base: `atan2 (cross (lid, base), dot (lid, base))` in degrees on
the normalised vectors, with `cross (a, b) = a_y * b_z - a_z * b_y`; rotating
the lid direction by that angle in the (y, z) plane gives the base direction. -/
theorem sample_angle_rotation_lid_to_base (v_base v_lid : ℂ) (angle : ℝ)
    (hb : 1 ≤ Complex.abs v_base ∧ Complex.abs v_base ≤ 11)
    (hl : 1 ≤ Complex.abs v_lid ∧ Complex.abs v_lid ≤ 11) :
    (sample_angle v_base v_lid angle).1 = 0 ∧
      (sample_angle v_base v_lid angle).2 = signed_rotation v_lid v_base ∧
      rotate (sample_angle v_base v_lid angle).2 (normalize v_lid) = normalize v_base := by
  refine ⟨?_, ?_, ?_⟩
  · rw [sample_angle_valid v_base v_lid angle hb.1 hb.2 hl.1 hl.2]
  · rw [sample_angle_accepted v_base v_lid angle hb.1 hb.2 hl.1 hl.2]
    rfl
  · rw [sample_angle_valid v_base v_lid angle hb.1 hb.2 hl.1 hl.2]
    exact rotate_lid_direction v_base v_lid (by linarith [hb.1]) (by linarith [hl.1])

/-- C7, amended, at the base (1, 0) and the lid (0, 1), both of magnitude 1. -/
theorem sample_angle_rotation_lid_to_base_witness :
    (1 ≤ Complex.abs 1 ∧ Complex.abs 1 ≤ 11) ∧
    (1 ≤ Complex.abs Complex.I ∧ Complex.abs Complex.I ≤ 11) ∧
    (sample_angle 1 Complex.I 0).1 = 0 ∧
      (sample_angle 1 Complex.I 0).2 = signed_rotation Complex.I 1 ∧
      rotate (sample_angle 1 Complex.I 0).2 (normalize Complex.I) = normalize 1 :=
  ⟨by simp, by simp,
    sample_angle_rotation_lid_to_base 1 Complex.I 0 (by simp) (by simp)⟩

/-- C8: aligned vectors give angle zero.  For every vector `v` of magnitude in
[1, 11], `sample_angle` with base `v` and lid `v` returns 0 (accepted) and
writes the angle 0. -/
theorem sample_angle_aligned (v : ℂ) (angle : ℝ)
    (h1 : 1 ≤ Complex.abs v) (h2 : Complex.abs v ≤ 11) :
    sample_angle v v angle = (0, 0) := by
  rw [sample_angle_valid v v angle h1 h2 h1 h2]
  have hdet : cdet v v = 0 := by
    simp only [cdet]
    ring
  have hdot : cdot v v = Complex.abs v ^ 2 := components_sq v
  have harg : atan2 0 (Complex.abs v ^ 2) = 0 := by
    unfold atan2
    rw [Complex.arg_eq_zero_iff]
    exact ⟨by positivity, rfl⟩
  rw [hdet, hdot, harg]
  simp

/-- C8 at the vector (3, 4), of magnitude 5. -/
theorem sample_angle_aligned_witness :
    (1 ≤ Complex.abs ⟨3, 4⟩ ∧ Complex.abs ⟨3, 4⟩ ≤ 11) ∧
      sample_angle ⟨3, 4⟩ ⟨3, 4⟩ 77 = (0, 0) :=
  ⟨by rw [abs_three_four]; norm_num,
    sample_angle_aligned ⟨3, 4⟩ 77 (by rw [abs_three_four]; norm_num)
      (by rw [abs_three_four]; norm_num)⟩

end EstimatorClaims

/-! ## Lemmas on the transition predicates and on the loops of `main` -/

section TransitionLemmas

variable {K : Type} [LinearOrderedField K]

/-- The samples that take Laptop to Tablet. -/
lemma laptop_to_tablet_iff (a : K) :
    (is_tablet a = true ∧ is_laptop a = false) ↔ (170 < a ∨ a ≤ -20) := by
  simp only [is_laptop, is_tablet, Bool.and_eq_false_iff, Bool.or_eq_true,
    decide_eq_true_eq, decide_eq_false_iff_not, not_lt, gt_iff_lt]
  constructor
  · rintro ⟨h1 | h1, h2 | h2⟩
    · exact Or.inr h2
    · exact Or.inl h1
    · exact Or.inr h2
    · linarith
  · rintro (h | h)
    · exact ⟨Or.inl h, Or.inr (by linarith)⟩
    · exact ⟨Or.inr (by linarith), Or.inl h⟩

/-- The samples that take Tablet to Laptop. -/
lemma tablet_to_laptop_iff (a : K) :
    (is_laptop a = true ∧ is_tablet a = false) ↔ (20 ≤ a ∧ a < 160) := by
  simp only [is_laptop, is_tablet, Bool.and_eq_true, Bool.or_eq_false_iff,
    decide_eq_true_eq, decide_eq_false_iff_not, not_lt, gt_iff_lt]
  constructor
  · rintro ⟨⟨-, h2⟩, -, h4⟩
    exact ⟨h4, h2⟩
  · rintro ⟨h1, h2⟩
    exact ⟨⟨by linarith, h2⟩, by linarith, h1⟩

omit [LinearOrderedField K] in
lemma bool_eq_iff_both_or_neither (p q : Bool) :
    p = q ↔ (p = true ∧ q = true) ∨ (p = false ∧ q = false) := by
  cases p <;> cases q <;> simp

/-- The loop with the coefficient as a parameter is the loop of the program at
the coefficient `IIR_COEF`. -/
lemma wait_loop_coef_IIR_COEF (M : mode_t) (ticks : List (Option K)) :
    ∀ avg : K, wait_loop_coef IIR_COEF M avg ticks = wait_loop M avg ticks := by
  induction ticks with
  | nil => intro avg; rfl
  | cons t rest ih =>
    intro avg
    cases t with
    | none => simp only [wait_loop_coef, wait_loop, ih]
    | some x => cases M <;> simp only [wait_loop_coef, wait_loop, sub_iir, ih]

/-- Whatever the coefficient and the running average, the loop returns in the
tick and with the mode that the raw angles decide. -/
lemma wait_loop_coef_decision (c : K) (M : mode_t) (ticks : List (Option K)) :
    ∀ avg : K, (wait_loop_coef c M avg ticks).map (fun r => (r.tick, r.mode)) =
      transition_decision M ticks := by
  have hmap : ∀ o : Option (mode_change K),
      (o.map mode_change.later).map (fun r => (r.tick, r.mode)) =
        (o.map (fun r => (r.tick, r.mode))).map (fun r => (r.1 + 1, r.2)) := by
    intro o
    cases o <;> rfl
  induction ticks with
  | nil => intro avg; rfl
  | cons t rest ih =>
    intro avg
    cases t with
    | none => simp only [wait_loop_coef, transition_decision, hmap, ih]
    | some x =>
      cases M <;> simp only [wait_loop_coef, transition_decision] <;> split_ifs <;>
        simp only [Option.map_some', hmap, ih]

/-- A call on a single accepted sample returns exactly when the sample leaves
the current mode. -/
lemma wait_for_mode_change_single (M : mode_t) (a : K) :
    (∃ r, wait_for_mode_change M [some a] = some r) ↔
      (band (opposite M) a = true ∧ band M a = false) := by
  unfold wait_for_mode_change
  rw [wait_loop_accepted]
  by_cases h : band (opposite M) a = true ∧ band M a = false
  · rw [if_pos h]
    exact ⟨fun _ => h, fun _ => ⟨_, rfl⟩⟩
  · rw [if_neg h, wait_loop_nil]
    constructor
    · rintro ⟨r, hr⟩
      simp at hr
    · intro h'
      exact absurd h' h

/-- No sample leaves both modes. -/
lemma not_leaves_both (M : mode_t) (a : K)
    (h : band (opposite M) a = true ∧ band M a = false) :
    ¬(band (opposite (opposite M)) a = true ∧ band (opposite M) a = false) := by
  rintro ⟨-, h2⟩
  rw [h.1] at h2
  exact absurd h2 (by decide)

end TransitionLemmas

/-! ## The claims on the bootstrap, the transitions and the loop of `main` -/

section TransitionClaims

/-- C14: startup bootstrap rule.  The bootstrap settles in iteration `i` on
mode `m` exactly when sample `i` is accepted, satisfies the band of `m` and
fails the other band (Laptop: laptop band true and tablet band false; Tablet:
the reverse), and every accepted sample before it satisfies both bands or
neither.  On [15, 90] it has not settled after the first sample and settles as
Laptop on the second. -/
theorem bootstrap_settles_at_first_unambiguous_sample :
    (∀ (K : Type) [LinearOrderedField K] (ticks : List (Option K)) (i : ℕ) (m : mode_t),
      main_initial_state ticks = some (i, m) ↔
        ∃ a, ticks[i]? = some (some a) ∧ band m a = true ∧ band (opposite m) a = false ∧
          ∀ j b, j < i → ticks[j]? = some (some b) →
            (is_laptop b = true ∧ is_tablet b = true) ∨
              (is_laptop b = false ∧ is_tablet b = false)) ∧
    main_initial_state [some (15 : ℚ)] = none ∧
    main_initial_state [some (15 : ℚ), some 90] = some (1, LAPTOP_MODE) := by
  refine ⟨?_, ?_, ?_⟩
  · intro K _ ticks i m
    rw [main_initial_state_eq_some_iff]
    constructor
    · rintro ⟨a, ha, h1, h2, hfirst⟩
      exact ⟨a, ha, h1, h2, fun j b hj hb =>
        (bool_eq_iff_both_or_neither _ _).1 (hfirst j b hj hb)⟩
    · rintro ⟨a, ha, h1, h2, hfirst⟩
      exact ⟨a, ha, h1, h2, fun j b hj hb =>
        (bool_eq_iff_both_or_neither _ _).2 (hfirst j b hj hb)⟩
  · norm_num [main_initial_state, is_laptop, is_tablet]
  · norm_num [main_initial_state, is_laptop, is_tablet]

/-- C15 as stated fails: on [90, 50] the bootstrap settles on the first sample
(index 0), not after the second. -/
theorem bootstrap_90_50_counterexample :
    main_initial_state [some (90 : ℚ), some 50] = some (0, LAPTOP_MODE) ∧
      main_initial_state [some (90 : ℚ), some 50] ≠ some (1, LAPTOP_MODE) := by
  norm_num [main_initial_state, is_laptop, is_tablet]

/-- C15, amended: on the accepted samples [90, 50] the initial mode settles to
Laptop on the first sample, 90, which is in the laptop band and not in the
tablet band; the bootstrap loop does not consume the second sample, whatever
follows 90. -/
theorem bootstrap_90_50 (K : Type) [LinearOrderedField K] :
    main_initial_state [some (90 : K), some 50] = some (0, LAPTOP_MODE) ∧
      ∀ rest : List (Option K), main_initial_state (some (90 : K) :: rest) =
        some (0, LAPTOP_MODE) := by
  have h : ∀ rest : List (Option K), main_initial_state (some (90 : K) :: rest) =
      some (0, LAPTOP_MODE) := by
    intro rest
    norm_num [main_initial_state, is_laptop, is_tablet]
  exact ⟨h _, h⟩

/-- C16 as stated fails: in Laptop mode a sample of exactly 170 does not
trigger the transition (the tablet band is `angle > 170`), and the sample -25,
which is below 170, does trigger it. -/
theorem laptop_to_tablet_trigger_counterexample :
    wait_for_mode_change LAPTOP_MODE [some (170 : ℚ)] = none ∧
      wait_for_mode_change LAPTOP_MODE [some (-25 : ℚ)] = some ⟨0, TABLET_MODE, -25⟩ := by
  norm_num [wait_for_mode_change, wait_loop, is_tablet, is_laptop, IIR_COEF, sub_iir]

/-- C16, amended: in Laptop mode an accepted angle triggers the transition to
Tablet (tablet band true and laptop band false) exactly when it is above 170 or
at most -20; a sample of exactly 170 does not trigger it. -/
theorem laptop_to_tablet_trigger_set (K : Type) [LinearOrderedField K] (angle : K) :
    ((is_tablet angle = true ∧ is_laptop angle = false) ↔ (170 < angle ∨ angle ≤ -20)) ∧
    ((∃ r, wait_for_mode_change LAPTOP_MODE [some angle] = some r) ↔
      (170 < angle ∨ angle ≤ -20)) ∧
    wait_for_mode_change LAPTOP_MODE [some (170 : K)] = none := by
  refine ⟨laptop_to_tablet_iff angle, ?_, ?_⟩
  · rw [wait_for_mode_change_single]
    exact laptop_to_tablet_iff angle
  · cases h : wait_for_mode_change LAPTOP_MODE [some (170 : K)] with
    | none => rfl
    | some r =>
      have h1 := (wait_for_mode_change_single LAPTOP_MODE (170 : K)).1 ⟨r, h⟩
      have h2 := (laptop_to_tablet_iff (170 : K)).1 h1
      norm_num at h2

/-- C18: the transition decision is independent of the smoothed value.
Whatever the filter coefficient and the running average the loop of
`wait_for_mode_change` starts from, it returns in the tick and with the mode
that the current mode and the raw angles alone decide; so two runs that differ
only in the running average or in the coefficient return in the same tick with
the same mode, and so does the program itself. -/
theorem transition_decision_ignores_filter (K : Type) [LinearOrderedField K]
    (M : mode_t) (ticks : List (Option K)) :
    (∀ c avg : K, (wait_loop_coef c M avg ticks).map (fun r => (r.tick, r.mode)) =
      transition_decision M ticks) ∧
    (∀ c₁ c₂ avg₁ avg₂ : K,
      (wait_loop_coef c₁ M avg₁ ticks).map (fun r => (r.tick, r.mode)) =
        (wait_loop_coef c₂ M avg₂ ticks).map (fun r => (r.tick, r.mode))) ∧
    (∀ avg : K, wait_loop_coef IIR_COEF M avg ticks = wait_loop M avg ticks) ∧
    (wait_for_mode_change M ticks).map (fun r => (r.tick, r.mode)) =
      transition_decision M ticks := by
  refine ⟨fun c avg => wait_loop_coef_decision c M ticks avg, fun c₁ c₂ avg₁ avg₂ => ?_,
    wait_loop_coef_IIR_COEF M ticks, ?_⟩
  · rw [wait_loop_coef_decision, wait_loop_coef_decision]
  · unfold wait_for_mode_change
    rw [← wait_loop_coef_IIR_COEF, wait_loop_coef_decision]

/-- C19: hysteresis exclusivity.  The Laptop-to-Tablet predicate holds exactly
for angles above 170 or at most -20, the Tablet-to-Laptop predicate exactly for
angles in [20, 160); no angle satisfies both; the angles that satisfy neither
are those of the gaps [160, 170] and (-20, 20); and the sample on which a call
of `wait_for_mode_change` returned never makes a call in the new mode return. -/
theorem hysteresis_exclusive (K : Type) [LinearOrderedField K] (angle : K) :
    ((is_tablet angle = true ∧ is_laptop angle = false) ↔ (170 < angle ∨ angle ≤ -20)) ∧
    ((is_laptop angle = true ∧ is_tablet angle = false) ↔ (20 ≤ angle ∧ angle < 160)) ∧
    ¬((is_tablet angle = true ∧ is_laptop angle = false) ∧
      (is_laptop angle = true ∧ is_tablet angle = false)) ∧
    ((¬(is_tablet angle = true ∧ is_laptop angle = false) ∧
        ¬(is_laptop angle = true ∧ is_tablet angle = false)) ↔
      angle ∈ Set.Icc (160 : K) 170 ∪ Set.Ioo (-20 : K) 20) ∧
    (∀ (M : mode_t) (ticks : List (Option K)) (r : mode_change K),
      wait_for_mode_change M ticks = some r → ticks[r.tick]? = some (some angle) →
      ∀ (ticks' : List (Option K)) (j : ℕ), ticks'[j]? = some (some angle) →
        ∀ r', wait_for_mode_change r.mode ticks' = some r' → r'.tick ≠ j) := by
  refine ⟨laptop_to_tablet_iff angle, tablet_to_laptop_iff angle, ?_, ?_, ?_⟩
  · rintro ⟨⟨h1, -⟩, -, h2⟩
    rw [h1] at h2
    exact absurd h2 (by decide)
  · rw [laptop_to_tablet_iff, tablet_to_laptop_iff]
    simp only [not_or, not_and, not_lt, not_le, Set.mem_union, Set.mem_Icc, Set.mem_Ioo]
    constructor
    · rintro ⟨⟨h1, h2⟩, h3⟩
      by_cases h : 20 ≤ angle
      · exact Or.inl ⟨h3 h, h1⟩
      · exact Or.inr ⟨h2, lt_of_not_le h⟩
    · rintro (⟨h1, h2⟩ | ⟨h1, h2⟩)
      · exact ⟨⟨h2, by linarith⟩, fun _ => h1⟩
      · exact ⟨⟨by linarith, h1⟩, fun h => by linarith⟩
  · intro M ticks r hr hi ticks' j hj r' hr' hj'
    obtain ⟨t, m, avg⟩ := r
    obtain ⟨t', m', avg'⟩ := r'
    simp only at hi hj' hr'
    subst hj'
    obtain ⟨hm, a, ha, hl, -⟩ := (wait_loop_returns_iff M ticks (-1000) t m).1 ⟨avg, hr⟩
    rw [hi] at ha
    simp only [Option.some.injEq] at ha
    subst ha
    subst hm
    obtain ⟨-, b, hb, hl', -⟩ :=
      (wait_loop_returns_iff (opposite M) ticks' (-1000) t' m').1 ⟨avg', hr'⟩
    rw [hj] at hb
    simp only [Option.some.injEq] at hb
    subst hb
    exact not_leaves_both M _ hl hl'

end TransitionClaims

/-! ## Lemmas on rounding -/

namespace IEEE

section RoundingLemmas

variable {K : Type} [LinearOrderedField K] [FloorRing K]

/-- `round_half_even y` is a nearest integer, and an even one in a tie. -/
lemma round_half_even_spec (y : K) :
    |(round_half_even y : K) - y| ≤ 1 / 2 ∧
      (|(round_half_even y : K) - y| = 1 / 2 → round_half_even y % 2 = 0) := by
  have h1 := Int.floor_le y
  have h2 := Int.lt_floor_add_one y
  unfold round_half_even
  split_ifs with ha hb hc
  · constructor
    · rw [abs_le]; constructor <;> linarith
    · intro h
      rw [abs_sub_comm, abs_of_nonneg (by linarith)] at h
      linarith
  · constructor
    · rw [abs_le]; push_cast; constructor <;> linarith
    · intro h
      push_cast at h
      rw [abs_of_nonneg (by linarith)] at h
      linarith
  · exact ⟨by rw [abs_le]; constructor <;> linarith, fun _ => hc⟩
  · constructor
    · rw [abs_le]; push_cast; constructor <;> linarith
    · intro _
      omega

/-- A nearest integer that is even in a tie is the one `round_half_even` gives. -/
lemma round_half_even_eq (y : K) (n : ℤ) (h : |(n : K) - y| ≤ 1 / 2)
    (hn : |(n : K) - y| = 1 / 2 → n % 2 = 0) : round_half_even y = n := by
  obtain ⟨h1, h2⟩ := round_half_even_spec y
  set m := round_half_even y with hm
  rw [abs_le] at h h1
  have hd : |((m - n : ℤ) : K)| ≤ 1 := by
    rw [abs_le]; push_cast; constructor <;> linarith [h.1, h.2, h1.1, h1.2]
  have hd' : |m - n| ≤ 1 := by exact_mod_cast hd
  rw [abs_le] at hd'
  by_contra hne
  rcases lt_or_gt_of_ne hne with hlt | hgt
  · have e : n = m + 1 := by omega
    have hnK : (n : K) = m + 1 := by rw [e]; push_cast; ring
    have e1 : (n : K) - y = 1 / 2 := by linarith [h.2, h1.1]
    have e2 : (m : K) - y = -(1 / 2) := by linarith
    have p1 := hn (by rw [e1]; exact abs_of_pos (by norm_num))
    have p2 := h2 (by rw [e2, abs_neg]; exact abs_of_pos (by norm_num))
    omega
  · have e : m = n + 1 := by omega
    have hmK : (m : K) = n + 1 := by rw [e]; push_cast; ring
    have e1 : (m : K) - y = 1 / 2 := by linarith [h.1, h1.2]
    have e2 : (n : K) - y = -(1 / 2) := by linarith
    have p1 := h2 (by rw [e1]; exact abs_of_pos (by norm_num))
    have p2 := hn (by rw [e2, abs_neg]; exact abs_of_pos (by norm_num))
    omega

lemma round_half_even_lt (y : K) (n : ℤ) (h : |(n : K) - y| < 1 / 2) :
    round_half_even y = n :=
  round_half_even_eq y n (le_of_lt h) (fun e => absurd e (ne_of_lt h))

lemma round_half_even_intCast (n : ℤ) : round_half_even (n : K) = n :=
  round_half_even_lt _ n (by simp)

lemma round_half_even_neg (y : K) : round_half_even (-y) = -round_half_even y := by
  obtain ⟨h1, h2⟩ := round_half_even_spec y
  apply round_half_even_eq
  · have : ((-round_half_even y : ℤ) : K) - -y = -((round_half_even y : K) - y) := by
      push_cast; ring
    rw [this, abs_neg]; exact h1
  · intro h
    have : ((-round_half_even y : ℤ) : K) - -y = -((round_half_even y : K) - y) := by
      push_cast; ring
    rw [this, abs_neg] at h
    have := h2 h
    omega

lemma round_half_even_mono {y z : K} (h : y ≤ z) : round_half_even y ≤ round_half_even z := by
  obtain ⟨hy1, hy2⟩ := round_half_even_spec y
  obtain ⟨hz1, hz2⟩ := round_half_even_spec z
  by_contra hlt
  push_neg at hlt
  -- round z + 1 ≤ round y
  have hK : (round_half_even z : K) + 1 ≤ round_half_even y := by exact_mod_cast hlt
  rw [abs_le] at hy1 hz1
  have e1 : (round_half_even y : K) - y = 1 / 2 := by linarith [hy1.1, hy1.2, hz1.1, hz1.2]
  have e2 : (round_half_even z : K) - z = -(1 / 2) := by linarith [hy1.1, hy1.2, hz1.1, hz1.2]
  have e3 : (round_half_even y : K) = round_half_even z + 1 := by linarith
  have p1 := hy2 (by rw [e1]; exact abs_of_pos (by norm_num))
  have p2 := hz2 (by rw [e2, abs_neg]; exact abs_of_pos (by norm_num))
  have e4 : round_half_even y = round_half_even z + 1 := by exact_mod_cast e3
  omega

lemma log_two_eq (x : K) (e : ℤ) (h1 : (2 : K) ^ e ≤ |x|) (h2 : |x| < (2 : K) ^ (e + 1)) :
    Int.log 2 |x| = e := by
  have hpos : 0 < |x| := lt_of_lt_of_le (zpow_pos (by norm_num) e) h1
  have a1 : e ≤ Int.log 2 |x| :=
    (Int.zpow_le_iff_le_log (b := 2) (by norm_num) hpos).1 (by simpa using h1)
  have a2 : Int.log 2 |x| < e + 1 :=
    (Int.lt_zpow_iff_log_lt (b := 2) (by norm_num) hpos).1 (by simpa using h2)
  omega

lemma log_two_bounds (x : K) (hx : x ≠ 0) :
    (2 : K) ^ Int.log 2 |x| ≤ |x| ∧ |x| < (2 : K) ^ (Int.log 2 |x| + 1) := by
  have hpos : 0 < |x| := abs_pos.2 hx
  have a1 := Int.zpow_log_le_self (b := 2) (by norm_num) hpos
  have a2 := Int.lt_zpow_succ_log_self (b := 2) (by norm_num) |x|
  exact ⟨by simpa using a1, by simpa using a2⟩

lemma ulp_pos (x : K) : 0 < ulp x := zpow_pos (by norm_num) _

lemma ulp_neg (x : K) : ulp (-x) = ulp x := by
  unfold ulp
  rw [abs_neg]

lemma ulp_of_bounds (x : K) (e : ℤ) (h1 : (2 : K) ^ e ≤ |x|) (h2 : |x| < (2 : K) ^ (e + 1)) :
    ulp x = (2 : K) ^ (max (e - 52) (-1074)) := by
  unfold ulp
  rw [log_two_eq x e h1 h2]

/-- How `fl` is evaluated: the binade of `x`, then the rounding of the quotient. -/
lemma fl_of_bounds (x : K) (e n : ℤ) (h1 : (2 : K) ^ e ≤ |x|) (h2 : |x| < (2 : K) ^ (e + 1))
    (hn : round_half_even (x / (2 : K) ^ (max (e - 52) (-1074))) = n) :
    fl x = (n : K) * (2 : K) ^ (max (e - 52) (-1074)) := by
  unfold fl
  rw [ulp_of_bounds x e h1 h2, hn]

lemma fl_zero : fl (0 : K) = 0 := by
  unfold fl
  rw [zero_div]
  have h : round_half_even (0 : K) = 0 := by
    have := round_half_even_intCast (K := K) 0
    simpa using this
  rw [h]
  simp

lemma fl_neg (x : K) : fl (-x) = -fl x := by
  unfold fl
  rw [ulp_neg, neg_div, round_half_even_neg]
  push_cast
  ring

lemma fl_nonneg {x : K} (hx : 0 ≤ x) : 0 ≤ fl x := by
  unfold fl
  have h0 : round_half_even (0 : K) = 0 := by
    have := round_half_even_intCast (K := K) 0
    simpa using this
  have h := round_half_even_mono (div_nonneg hx (le_of_lt (ulp_pos x)))
  rw [h0] at h
  exact mul_nonneg (by exact_mod_cast h) (le_of_lt (ulp_pos x))

/-- Rounding is monotone on the positive numbers. -/
lemma fl_mono_pos {x y : K} (hx : 0 < x) (h : x ≤ y) : fl x ≤ fl y := by
  have hy : 0 < y := lt_of_lt_of_le hx h
  have hxb := log_two_bounds x (ne_of_gt hx)
  have hyb := log_two_bounds y (ne_of_gt hy)
  rw [abs_of_pos hx] at hxb
  rw [abs_of_pos hy] at hyb
  have hlog : Int.log 2 x ≤ Int.log 2 y := Int.log_mono_right hx h
  by_cases hk : max (Int.log 2 x - 52) (-1074) = max (Int.log 2 y - 52) (-1074)
  · have hu : ulp x = ulp y := by
      unfold ulp
      rw [abs_of_pos hx, abs_of_pos hy, hk]
    unfold fl
    rw [hu]
    have hq := ulp_pos y
    have h1 : round_half_even (x / ulp y) ≤ round_half_even (y / ulp y) :=
      round_half_even_mono (div_le_div_of_nonneg_right h (le_of_lt hq))
    exact mul_le_mul_of_nonneg_right (by exact_mod_cast h1) (le_of_lt hq)
  · have hlt : Int.log 2 x < Int.log 2 y := by
      rcases lt_or_eq_of_le hlog with h' | h'
      · exact h'
      · rw [h'] at hk
        exact absurd rfl hk
    have hky : max (Int.log 2 y - 52) (-1074) = Int.log 2 y - 52 := by
      apply max_eq_left
      by_contra hc
      push_neg at hc
      apply hk
      rw [max_eq_right (by omega), max_eq_right (by omega)]
    have hkx : max (Int.log 2 x - 52) (-1074) ≤ Int.log 2 y - 53 := by
      have h52 : -1074 ≤ Int.log 2 y - 52 := by rw [← hky]; exact le_max_right _ _
      apply max_le
      · omega
      · by_contra hc
        push_neg at hc
        apply hk
        rw [max_eq_right (by omega), max_eq_right (by omega)]
    -- the power of two between the two
    have hmid1 : fl x ≤ (2 : K) ^ Int.log 2 y := by
      set kx := max (Int.log 2 x - 52) (-1074) with hkxdef
      have hux : ulp x = (2 : K) ^ kx := by
        unfold ulp
        rw [abs_of_pos hx]
      obtain ⟨d, hd⟩ : ∃ d : ℕ, (d : ℤ) = Int.log 2 y - kx := ⟨(Int.log 2 y - kx).toNat, by omega⟩
      have hN : (((2 : ℤ) ^ d : ℤ) : K) = (2 : K) ^ Int.log 2 y / (2 : K) ^ kx := by
        rw [← zpow_sub₀ (by norm_num : (2 : K) ≠ 0), ← hd]
        push_cast
        rw [zpow_natCast]
      have hxle : x ≤ (2 : K) ^ Int.log 2 y := by
        have : (2 : K) ^ (Int.log 2 x + 1) ≤ (2 : K) ^ Int.log 2 y :=
          zpow_le_zpow_right₀ (by norm_num) (by omega)
        linarith [hxb.2]
      have hq : (0 : K) < (2 : K) ^ kx := zpow_pos (by norm_num) _
      have h1 : round_half_even (x / (2 : K) ^ kx) ≤ (2 : ℤ) ^ d := by
        have := round_half_even_mono (div_le_div_of_nonneg_right hxle (le_of_lt hq))
        rw [← hN, round_half_even_intCast] at this
        exact this
      unfold fl
      rw [hux]
      calc (round_half_even (x / (2 : K) ^ kx) : K) * (2 : K) ^ kx
          ≤ (((2 : ℤ) ^ d : ℤ) : K) * (2 : K) ^ kx :=
            mul_le_mul_of_nonneg_right (by exact_mod_cast h1) (le_of_lt hq)
        _ = (2 : K) ^ Int.log 2 y := by rw [hN]; field_simp
    have hmid2 : (2 : K) ^ Int.log 2 y ≤ fl y := by
      have huy : ulp y = (2 : K) ^ (Int.log 2 y - 52) := by
        unfold ulp
        rw [abs_of_pos hy, hky]
      have hq : (0 : K) < (2 : K) ^ (Int.log 2 y - 52) := zpow_pos (by norm_num) _
      have hN : (((2 : ℤ) ^ 52 : ℤ) : K) = (2 : K) ^ Int.log 2 y / (2 : K) ^ (Int.log 2 y - 52) := by
        rw [← zpow_sub₀ (by norm_num : (2 : K) ≠ 0)]
        have : Int.log 2 y - (Int.log 2 y - 52) = ((52 : ℕ) : ℤ) := by push_cast; ring
        rw [this, zpow_natCast]
        norm_num
      have h1 : (2 : ℤ) ^ 52 ≤ round_half_even (y / (2 : K) ^ (Int.log 2 y - 52)) := by
        have := round_half_even_mono (div_le_div_of_nonneg_right hyb.1 (le_of_lt hq))
        rw [← hN, round_half_even_intCast] at this
        exact this
      unfold fl
      rw [huy]
      calc (2 : K) ^ Int.log 2 y
          = (((2 : ℤ) ^ 52 : ℤ) : K) * (2 : K) ^ (Int.log 2 y - 52) := by rw [hN]; field_simp
        _ ≤ (round_half_even (y / (2 : K) ^ (Int.log 2 y - 52)) : K) *
              (2 : K) ^ (Int.log 2 y - 52) :=
            mul_le_mul_of_nonneg_right (by exact_mod_cast h1) (le_of_lt hq)
    exact le_trans hmid1 hmid2

/-- Rounding is monotone. -/
lemma fl_mono {x y : K} (h : x ≤ y) : fl x ≤ fl y := by
  rcases lt_trichotomy x 0 with hx | hx | hx
  · rcases lt_or_le y 0 with hy | hy
    · have := fl_mono_pos (x := -y) (y := -x) (by linarith) (by linarith)
      rw [fl_neg, fl_neg] at this
      linarith
    · have h1 : fl x ≤ 0 := by
        have := fl_nonneg (x := -x) (by linarith)
        rw [fl_neg] at this
        linarith
      exact le_trans h1 (fl_nonneg hy)
  · subst hx
    rw [fl_zero]
    exact fl_nonneg h
  · exact fl_mono_pos hx h

/-- Evaluation of `fl` where the quotient is nearer to `n` than to any other
integer. -/
lemma fl_eval (x : K) (e k n : ℤ) (hk : k = max (e - 52) (-1074))
    (h1 : (2 : K) ^ e ≤ |x|) (h2 : |x| < (2 : K) ^ (e + 1))
    (h : |(n : K) - x / (2 : K) ^ k| < 1 / 2) : fl x = (n : K) * (2 : K) ^ k := by
  subst hk
  exact fl_of_bounds x e n h1 h2 (round_half_even_lt _ n h)

/-- Evaluation of `fl` in a tie: the even neighbour. -/
lemma fl_eval_tie (x : K) (e k n : ℤ) (hk : k = max (e - 52) (-1074))
    (h1 : (2 : K) ^ e ≤ |x|) (h2 : |x| < (2 : K) ^ (e + 1))
    (h : |(n : K) - x / (2 : K) ^ k| = 1 / 2) (hn : n % 2 = 0) :
    fl x = (n : K) * (2 : K) ^ k := by
  subst hk
  exact fl_of_bounds x e n h1 h2 (round_half_even_eq _ n (le_of_eq h) (fun _ => hn))

end RoundingLemmas

end IEEE

/-! ## Lemmas on the filter in double arithmetic -/

namespace IEEE

section FilterLemmas

variable {K : Type} [LinearOrderedField K] [FloorRing K]

lemma IIR_COEF_val : (IIR_COEF : K) = 3602879701896397 / 2 ^ 54 := by
  unfold IIR_COEF
  rw [fl_eval (0.2 : K) (-3) (-55) 7205759403792794 (by norm_num) (by norm_num [abs_of_pos])
    (by norm_num [abs_of_pos]) (by norm_num [abs_lt])]
  norm_num

lemma sub_iir_val : (sub_iir : K) = 3602879701896397 / 2 ^ 52 := by
  unfold sub_iir
  rw [IIR_COEF_val, fl_eval_tie (1.0 - 3602879701896397 / 2 ^ 54 : K) (-1) (-53)
    7205759403792794 (by norm_num) (by norm_num [abs_of_pos]) (by norm_num [abs_of_pos])
    (by norm_num [abs_of_pos]) (by norm_num)]
  norm_num

lemma fl_IIR_COEF_mul_180 : fl ((3602879701896397 / 2 ^ 54 : K) * 180) = 36 := by
  rw [fl_eval ((3602879701896397 / 2 ^ 54 : K) * 180) 5 (-47) 5066549580791808 (by norm_num)
    (by norm_num [abs_of_pos]) (by norm_num [abs_of_pos]) (by norm_num [abs_lt])]
  norm_num

lemma fl_sub_iir_mul_180 : fl ((3602879701896397 / 2 ^ 52 : K) * 180) = 144 := by
  rw [fl_eval ((3602879701896397 / 2 ^ 52 : K) * 180) 7 (-45) 5066549580791808 (by norm_num)
    (by norm_num [abs_of_pos]) (by norm_num [abs_of_pos]) (by norm_num [abs_lt])]
  norm_num

lemma fl_180 : fl (180 : K) = 180 := by
  rw [fl_eval (180 : K) 7 (-45) 6333186975989760 (by norm_num) (by norm_num [abs_of_pos])
    (by norm_num [abs_of_pos]) (by norm_num)]
  norm_num

/-- One update keeps the running average within [-180, 180]. -/
lemma iir_step_bounds (avg a : K) (hv : -180 ≤ avg ∧ avg ≤ 180) (ha : -180 ≤ a ∧ a ≤ 180) :
    -180 ≤ iir_step avg a ∧ iir_step avg a ≤ 180 := by
  unfold iir_step
  rw [IIR_COEF_val, sub_iir_val]
  have hc : (0 : K) ≤ 3602879701896397 / 2 ^ 54 := by norm_num
  have hs : (0 : K) ≤ 3602879701896397 / 2 ^ 52 := by norm_num
  have a1 : fl ((3602879701896397 / 2 ^ 54 : K) * a) ≤ 36 := by
    rw [← fl_IIR_COEF_mul_180]
    exact fl_mono (mul_le_mul_of_nonneg_left ha.2 hc)
  have a2 : -36 ≤ fl ((3602879701896397 / 2 ^ 54 : K) * a) := by
    have h := fl_mono (mul_le_mul_of_nonneg_left ha.1 hc)
    rw [mul_neg, fl_neg, fl_IIR_COEF_mul_180] at h
    exact h
  have b1 : fl ((3602879701896397 / 2 ^ 52 : K) * avg) ≤ 144 := by
    rw [← fl_sub_iir_mul_180]
    exact fl_mono (mul_le_mul_of_nonneg_left hv.2 hs)
  have b2 : -144 ≤ fl ((3602879701896397 / 2 ^ 52 : K) * avg) := by
    have h := fl_mono (mul_le_mul_of_nonneg_left hv.1 hs)
    rw [mul_neg, fl_neg, fl_sub_iir_mul_180] at h
    exact h
  constructor
  · have h := fl_mono (show (-180 : K) ≤ fl ((3602879701896397 / 2 ^ 54 : K) * a) +
      fl ((3602879701896397 / 2 ^ 52 : K) * avg) by linarith)
    rw [fl_neg, fl_180] at h
    exact h
  · have h := fl_mono (show fl ((3602879701896397 / 2 ^ 54 : K) * a) +
      fl ((3602879701896397 / 2 ^ 52 : K) * avg) ≤ (180 : K) by linarith)
    rw [fl_180] at h
    exact h

omit [LinearOrderedField K] [FloorRing K] in
lemma call_state_later_angle_avg (s : call_state K) : s.later.angle_avg = s.angle_avg := by
  cases s <;> rfl

lemma fp_wait_loop_rejected (M : mode_t) (avg : K) (rest : List (Option K)) :
    wait_loop M avg (none :: rest) = (wait_loop M avg rest).later := rfl

/-- One accepted sample of the loop, in the vocabulary of the specification. -/
lemma fp_wait_loop_accepted (M : mode_t) (avg a : K) (rest : List (Option K)) :
    wait_loop M avg (some a :: rest) =
      if band (opposite M) a = true ∧ band M a = false then
        call_state.returned ⟨0, opposite M, iir_step (if avg = -1000 then a else avg) a⟩
      else (wait_loop M (iir_step (if avg = -1000 then a else avg) a) rest).later := by
  cases M <;> simp [wait_loop, band, opposite, iir_step]

/-- While no sample is accepted the loop keeps its `angle_avg`. -/
lemma fp_wait_loop_all_rejected (M : mode_t) (ticks : List (Option K))
    (h : ¬∃ x, some x ∈ ticks) (avg : K) :
    wait_loop M avg ticks = call_state.running avg := by
  induction ticks with
  | nil => rfl
  | cons t rest ih =>
    cases t with
    | none =>
      rw [fp_wait_loop_rejected, ih (fun ⟨x, hx⟩ => h ⟨x, List.mem_cons_of_mem _ hx⟩)]
      rfl
    | some a => exact absurd ⟨a, List.mem_cons_self _ _⟩ h

/-- An initialised running average within [-180, 180] stays there, the accepted
angles lying in [-180, 180]. -/
lemma fp_wait_loop_bounds (M : mode_t) (ticks : List (Option K)) :
    ∀ avg : K, -180 ≤ avg ∧ avg ≤ 180 →
      (∀ x, some x ∈ ticks → -180 ≤ x ∧ x ≤ 180) →
      -180 ≤ (wait_loop M avg ticks).angle_avg ∧ (wait_loop M avg ticks).angle_avg ≤ 180 := by
  induction ticks with
  | nil => intro avg h _; exact h
  | cons t rest ih =>
    intro avg h hx
    have hrest : ∀ x, some x ∈ rest → -180 ≤ x ∧ x ≤ 180 :=
      fun x hm => hx x (List.mem_cons_of_mem _ hm)
    cases t with
    | none =>
      rw [fp_wait_loop_rejected, call_state_later_angle_avg]
      exact ih avg h hrest
    | some a =>
      have ha := hx a (List.mem_cons_self _ _)
      have hne : avg ≠ -1000 := by
        intro e
        rw [e] at h
        linarith [h.1]
      have hb := iir_step_bounds avg a h ha
      rw [fp_wait_loop_accepted, if_neg hne]
      split_ifs
      · exact hb
      · rw [call_state_later_angle_avg]
        exact ih _ hb hrest

/-- From the flag value: once a sample has been accepted the running average is
within [-180, 180]. -/
lemma fp_wait_loop_flag_bounds (M : mode_t) (ticks : List (Option K))
    (hx : ∀ x, some x ∈ ticks → -180 ≤ x ∧ x ≤ 180) (hex : ∃ x, some x ∈ ticks) :
    -180 ≤ (wait_loop M (-1000) ticks).angle_avg ∧
      (wait_loop M (-1000) ticks).angle_avg ≤ 180 := by
  induction ticks with
  | nil =>
    obtain ⟨x, h⟩ := hex
    simp at h
  | cons t rest ih =>
    have hrest : ∀ x, some x ∈ rest → -180 ≤ x ∧ x ≤ 180 :=
      fun x hm => hx x (List.mem_cons_of_mem _ hm)
    cases t with
    | none =>
      obtain ⟨x, h⟩ := hex
      simp only [List.mem_cons, reduceCtorEq, false_or] at h
      rw [fp_wait_loop_rejected, call_state_later_angle_avg]
      exact ih hrest ⟨x, h⟩
    | some a =>
      have ha := hx a (List.mem_cons_self _ _)
      have hb := iir_step_bounds a a ha ha
      rw [fp_wait_loop_accepted, if_pos rfl]
      split_ifs
      · exact hb
      · rw [call_state_later_angle_avg]
        exact fp_wait_loop_bounds M rest _ hb hrest

/-- A call still in its loop after `pre` goes on through `post` from the
running average it has reached. -/
lemma fp_wait_loop_append (M : mode_t) (pre post : List (Option K)) :
    ∀ avg avg' : K, wait_loop M avg pre = call_state.running avg' →
      (wait_loop M avg (pre ++ post)).angle_avg = (wait_loop M avg' post).angle_avg := by
  induction pre with
  | nil =>
    intro avg avg' h
    simp only [wait_loop, call_state.running.injEq] at h
    rw [h, List.nil_append]
  | cons t rest ih =>
    intro avg avg' h
    cases t with
    | none =>
      rw [fp_wait_loop_rejected] at h
      rw [List.cons_append, fp_wait_loop_rejected, call_state_later_angle_avg]
      cases hw : wait_loop M avg rest with
      | returned r => rw [hw] at h; simp [call_state.later] at h
      | running v =>
        rw [hw] at h
        simp only [call_state.later, call_state.running.injEq] at h
        subst h
        exact ih avg v hw
    | some a =>
      rw [fp_wait_loop_accepted] at h
      rw [List.cons_append, fp_wait_loop_accepted]
      by_cases hl : band (opposite M) a = true ∧ band M a = false
      · rw [if_pos hl] at h
        simp at h
      · rw [if_neg hl] at h
        rw [if_neg hl, call_state_later_angle_avg]
        cases hw : wait_loop M (iir_step (if avg = -1000 then a else avg) a) rest with
        | returned r => rw [hw] at h; simp [call_state.later] at h
        | running v =>
          rw [hw] at h
          simp only [call_state.later, call_state.running.injEq] at h
          subst h
          exact ih _ v hw

lemma fl_IIR_COEF_mul_3 :
    fl ((3602879701896397 / 2 ^ 54 : K) * 3) = 1351079888211149 / 2 ^ 51 := by
  rw [fl_eval_tie ((3602879701896397 / 2 ^ 54 : K) * 3) (-1) (-53) 5404319552844596
    (by norm_num) (by norm_num [abs_of_pos]) (by norm_num [abs_of_pos])
    (by norm_num [abs_of_pos]) (by norm_num)]
  norm_num

lemma fl_sub_iir_mul_3 :
    fl ((3602879701896397 / 2 ^ 52 : K) * 3) = 1351079888211149 / 2 ^ 49 := by
  rw [fl_eval_tie ((3602879701896397 / 2 ^ 52 : K) * 3) 1 (-51) 5404319552844596
    (by norm_num) (by norm_num [abs_of_pos]) (by norm_num [abs_of_pos])
    (by norm_num [abs_of_pos]) (by norm_num)]
  norm_num

/-- In doubles, `0.2 * 3 + 0.8 * 3` is `3 + 2 ^ (-51)`, printed
3.0000000000000004. -/
lemma iir_step_3_3 : iir_step (3 : K) 3 = 6755399441055745 / 2 ^ 51 := by
  unfold iir_step
  rw [IIR_COEF_val, sub_iir_val, fl_IIR_COEF_mul_3, fl_sub_iir_mul_3,
    fl_eval (1351079888211149 / 2 ^ 51 + 1351079888211149 / 2 ^ 49 : K) 1 (-51)
      6755399441055745 (by norm_num) (by norm_num [abs_of_pos]) (by norm_num [abs_of_pos])
      (by norm_num)]
  norm_num

/-- The running average after a single accepted sample, returned on or not. -/
lemma fp_wait_loop_single (M : mode_t) (avg a : K) :
    (wait_loop M avg [some a]).angle_avg = iir_step (if avg = -1000 then a else avg) a := by
  rw [fp_wait_loop_accepted]
  split_ifs <;> rfl

/-- The sample 3 keeps a call in Laptop mode in its loop. -/
lemma fp_wait_loop_laptop_3 (avg : K) :
    wait_loop LAPTOP_MODE avg [some 3] =
      call_state.running (iir_step (if avg = -1000 then 3 else avg) 3) := by
  have h : ¬(band (opposite LAPTOP_MODE) (3 : K) = true ∧ band LAPTOP_MODE (3 : K) = false) := by
    norm_num [band, opposite, is_laptop, is_tablet]
  rw [fp_wait_loop_accepted, if_neg h]
  rfl

/-- Rejected ticks and then a sample that leaves the current mode: the call
returns on that sample. -/
lemma fp_wait_loop_rejected_then_leaving (M : mode_t) (avg a : K) (rest : List (Option K))
    (h : band (opposite M) a = true ∧ band M a = false) (k : ℕ) :
    wait_loop M avg (List.replicate k none ++ some a :: rest) =
      call_state.returned ⟨k, opposite M, iir_step (if avg = -1000 then a else avg) a⟩ := by
  induction k with
  | zero =>
    rw [List.replicate_zero, List.nil_append, fp_wait_loop_accepted, if_pos h]
  | succ k ih =>
    rw [List.replicate_succ, List.cons_append, fp_wait_loop_rejected, ih]
    rfl

omit [LinearOrderedField K] [FloorRing K] in
lemma drop_rejected_then (k : ℕ) (t : Option K) (rest : List (Option K)) :
    (List.replicate k none ++ t :: rest).drop (k + 1) = rest := by
  induction k with
  | zero => rfl
  | succ k ih =>
    rw [List.replicate_succ, List.cons_append, List.drop_succ_cons, ih]

lemma iir_step_175_175 : iir_step (175 : K) 175 = 175 := by
  unfold iir_step
  rw [IIR_COEF_val, sub_iir_val,
    fl_eval ((3602879701896397 / 2 ^ 54 : K) * 175) 5 (-47) 4925812092436480 (by norm_num)
      (by norm_num [abs_of_pos]) (by norm_num [abs_of_pos]) (by norm_num [abs_lt]),
    fl_eval ((3602879701896397 / 2 ^ 52 : K) * 175) 7 (-45) 4925812092436480 (by norm_num)
      (by norm_num [abs_of_pos]) (by norm_num [abs_of_pos]) (by norm_num [abs_lt]),
    fl_eval ((4925812092436480 : ℤ) * (2 : K) ^ (-47 : ℤ) +
      (4925812092436480 : ℤ) * (2 : K) ^ (-45 : ℤ)) 7 (-45) 6157265115545600 (by norm_num)
      (by norm_num [abs_of_pos]) (by norm_num [abs_of_pos]) (by norm_num)]
  norm_num

lemma iir_step_90_90 : iir_step (90 : K) 90 = 90 := by
  unfold iir_step
  rw [IIR_COEF_val, sub_iir_val,
    fl_eval ((3602879701896397 / 2 ^ 54 : K) * 90) 4 (-48) 5066549580791808 (by norm_num)
      (by norm_num [abs_of_pos]) (by norm_num [abs_of_pos]) (by norm_num [abs_lt]),
    fl_eval ((3602879701896397 / 2 ^ 52 : K) * 90) 6 (-46) 5066549580791808 (by norm_num)
      (by norm_num [abs_of_pos]) (by norm_num [abs_of_pos]) (by norm_num [abs_lt]),
    fl_eval ((5066549580791808 : ℤ) * (2 : K) ^ (-48 : ℤ) +
      (5066549580791808 : ℤ) * (2 : K) ^ (-46 : ℤ)) 6 (-46) 6333186975989760 (by norm_num)
      (by norm_num [abs_of_pos]) (by norm_num [abs_of_pos]) (by norm_num)]
  norm_num

lemma iir_step_175_90 : iir_step (175 : K) 90 = 158 := by
  unfold iir_step
  rw [IIR_COEF_val, sub_iir_val,
    fl_eval ((3602879701896397 / 2 ^ 54 : K) * 90) 4 (-48) 5066549580791808 (by norm_num)
      (by norm_num [abs_of_pos]) (by norm_num [abs_of_pos]) (by norm_num [abs_lt]),
    fl_eval ((3602879701896397 / 2 ^ 52 : K) * 175) 7 (-45) 4925812092436480 (by norm_num)
      (by norm_num [abs_of_pos]) (by norm_num [abs_of_pos]) (by norm_num [abs_lt]),
    fl_eval ((5066549580791808 : ℤ) * (2 : K) ^ (-48 : ℤ) +
      (4925812092436480 : ℤ) * (2 : K) ^ (-45 : ℤ)) 7 (-45) 5559130790035456 (by norm_num)
      (by norm_num [abs_of_pos]) (by norm_num [abs_of_pos]) (by norm_num)]
  norm_num

end FilterLemmas

/-! ## The claims on the filter -/

section FilterClaims

/-- C12 as stated fails: in a call in Laptop mode the first accepted sample 3
leaves the running average `3 + 2 ^ (-51)` (3.0000000000000004), not 3. -/
theorem filter_update_counterexample :
    wait_for_mode_change LAPTOP_MODE [some (3 : ℚ)] =
        call_state.running (6755399441055745 / 2 ^ 51) ∧
      (6755399441055745 / 2 ^ 51 : ℚ) ≠ 3 := by
  constructor
  · unfold wait_for_mode_change
    rw [fp_wait_loop_laptop_3, if_pos rfl, iir_step_3_3]
  · norm_num

/-- C12, amended: the doubles `IIR_COEF` and `sub_iir` are
3602879701896397 / 2^54 and 3602879701896397 / 2^52 (their sum is not 1); in a
call of `wait_for_mode_change` the running average after the first accepted
sample `a` is `IIR_COEF * a + sub_iir * a` in double arithmetic (two rounded
products and their rounded sum), which need not be `a`; after every later
accepted sample it is `IIR_COEF * a + sub_iir * avg` in double arithmetic, `avg`
being the running average before it (the accepted angles so far lying in
[-180, 180]). -/
theorem filter_update_rounded (K : Type) [LinearOrderedField K] [FloorRing K] :
    ((IIR_COEF : K) = 3602879701896397 / 2 ^ 54 ∧ (sub_iir : K) = 3602879701896397 / 2 ^ 52) ∧
    (∀ (M : mode_t) (n : ℕ) (a : K),
      (wait_for_mode_change M (List.replicate n none ++ [some a])).angle_avg =
        fl (fl (IIR_COEF * a) + fl (sub_iir * a))) ∧
    (∀ (M : mode_t) (pre : List (Option K)) (avg a : K), (∃ x, some x ∈ pre) →
      (∀ x, some x ∈ pre → -180 ≤ x ∧ x ≤ 180) →
      wait_for_mode_change M pre = call_state.running avg →
      (wait_for_mode_change M (pre ++ [some a])).angle_avg =
        fl (fl (IIR_COEF * a) + fl (sub_iir * avg))) := by
  refine ⟨⟨IIR_COEF_val, sub_iir_val⟩, ?_, ?_⟩
  · intro M n a
    unfold wait_for_mode_change
    rw [fp_wait_loop_append M _ _ (-1000) (-1000)
      (fp_wait_loop_all_rejected M _ (by simp) (-1000)), fp_wait_loop_single, if_pos rfl]
    rfl
  · intro M pre avg a hex hrange hrun
    unfold wait_for_mode_change at hrun ⊢
    have hb := fp_wait_loop_flag_bounds M pre hrange hex
    rw [hrun] at hb
    have hne : avg ≠ -1000 := by
      intro e
      have h1 : (-180 : K) ≤ avg := hb.1
      rw [e] at h1
      linarith
    rw [fp_wait_loop_append M pre _ (-1000) avg hrun, fp_wait_loop_single, if_neg hne]
    rfl

/-- C12, amended, on the accepted samples 3 and then 10 in Laptop mode. -/
theorem filter_update_rounded_witness :
    (∃ x, some x ∈ [some (3 : ℚ)]) ∧
    (∀ x, some x ∈ [some (3 : ℚ)] → -180 ≤ x ∧ x ≤ 180) ∧
    wait_for_mode_change LAPTOP_MODE [some (3 : ℚ)] =
      call_state.running (6755399441055745 / 2 ^ 51) ∧
    (wait_for_mode_change LAPTOP_MODE ([some (3 : ℚ)] ++ [some 10])).angle_avg =
      fl (fl (IIR_COEF * 10) + fl (sub_iir * (6755399441055745 / 2 ^ 51))) :=
  have h1 : ∃ x, some x ∈ [some (3 : ℚ)] := ⟨3, by simp⟩
  have h2 : ∀ x, some x ∈ [some (3 : ℚ)] → -180 ≤ x ∧ x ≤ 180 := by
    intro x hx
    simp only [List.mem_singleton, Option.some.injEq] at hx
    subst hx
    norm_num
  have h3 : wait_for_mode_change LAPTOP_MODE [some (3 : ℚ)] =
      call_state.running (6755399441055745 / 2 ^ 51) := by
    unfold wait_for_mode_change
    rw [fp_wait_loop_laptop_3, if_pos rfl, iir_step_3_3]
  ⟨h1, h2, h3, (filter_update_rounded ℚ).2.2 LAPTOP_MODE [some 3] _ 10 h1 h2 h3⟩

/-- C20 as stated fails: after the single accepted sample 3, which is the least
and the greatest accepted angle, the running average is above 3. -/
theorem filter_min_max_counterexample :
    (wait_for_mode_change LAPTOP_MODE [some (3 : ℚ)]).angle_avg = 6755399441055745 / 2 ^ 51 ∧
      ¬((3 : ℚ) ≤ (wait_for_mode_change LAPTOP_MODE [some (3 : ℚ)]).angle_avg ∧
        (wait_for_mode_change LAPTOP_MODE [some (3 : ℚ)]).angle_avg ≤ 3) := by
  have h : (wait_for_mode_change LAPTOP_MODE [some (3 : ℚ)]).angle_avg =
      6755399441055745 / 2 ^ 51 := by
    unfold wait_for_mode_change
    rw [fp_wait_loop_laptop_3, if_pos rfl, iir_step_3_3]
    rfl
  rw [h]
  norm_num

/-- C20, amended: within one call of `wait_for_mode_change`, every accepted
angle lying in [-180, 180]: once a sample has been accepted the running average
lies in [-180, 180] and is not the flag value -1000; while none has been
accepted the call is in its loop with the flag value; so the test
`angle_avg == -1000` of a call still in its loop succeeds exactly when no
sample has been accepted: on the first accepted sample and on no later one. -/
theorem filter_never_flag_value (K : Type) [LinearOrderedField K] [FloorRing K]
    (M : mode_t) (ticks : List (Option K))
    (hrange : ∀ x, some x ∈ ticks → -180 ≤ x ∧ x ≤ 180) :
    ((∃ x, some x ∈ ticks) →
      -180 ≤ (wait_for_mode_change M ticks).angle_avg ∧
      (wait_for_mode_change M ticks).angle_avg ≤ 180 ∧
      (wait_for_mode_change M ticks).angle_avg ≠ -1000) ∧
    ((¬∃ x, some x ∈ ticks) → wait_for_mode_change M ticks = call_state.running (-1000)) ∧
    (∀ avg, wait_for_mode_change M ticks = call_state.running avg →
      (avg = -1000 ↔ ¬∃ x, some x ∈ ticks)) := by
  have hb : (∃ x, some x ∈ ticks) →
      -180 ≤ (wait_for_mode_change M ticks).angle_avg ∧
      (wait_for_mode_change M ticks).angle_avg ≤ 180 :=
    fp_wait_loop_flag_bounds M ticks hrange
  have hne : (∃ x, some x ∈ ticks) → (wait_for_mode_change M ticks).angle_avg ≠ -1000 := by
    intro hex e
    have h := (hb hex).1
    rw [e] at h
    linarith
  have hrej : (¬∃ x, some x ∈ ticks) →
      wait_for_mode_change M ticks = call_state.running (-1000) :=
    fun h => fp_wait_loop_all_rejected M ticks h (-1000)
  refine ⟨fun hex => ⟨(hb hex).1, (hb hex).2, hne hex⟩, hrej, ?_⟩
  intro avg hrun
  constructor
  · intro e hex
    have h := hne hex
    rw [hrun] at h
    exact h e
  · intro hno
    have h := hrej hno
    rw [hrun] at h
    simpa using h

/-- C20, amended, in Laptop mode on the ticks 10, rejected, 20. -/
theorem filter_never_flag_value_witness :
    (∀ x, some x ∈ [some (10 : ℚ), none, some 20] → -180 ≤ x ∧ x ≤ 180) ∧
    (∃ x, some x ∈ [some (10 : ℚ), none, some 20]) ∧
    (wait_for_mode_change LAPTOP_MODE [some (10 : ℚ), none, some 20]).angle_avg ≠ -1000 :=
  have h1 : ∀ x, some x ∈ [some (10 : ℚ), none, some 20] → -180 ≤ x ∧ x ≤ 180 := by
    intro x hx
    simp only [List.mem_cons, Option.some.injEq, reduceCtorEq, List.mem_singleton,
      false_or, List.not_mem_nil, or_false] at hx
    rcases hx with rfl | rfl <;> norm_num
  have h2 : ∃ x, some x ∈ [some (10 : ℚ), none, some 20] := ⟨10, by simp⟩
  ⟨h1, h2, ((filter_never_flag_value ℚ LAPTOP_MODE _ h1).1 h2).2.2⟩

/-- C17 as stated fails: from Laptop on the accepted samples 175 and 90, the
first call returns Tablet on 175 with the running average 175, and the second
call returns Laptop on 90 with the running average 90, not with the blend
`0.2 * 90 + 0.8 * 175`, which is 158. -/
theorem filter_continuity_counterexample :
    main_loop 2 LAPTOP_MODE [some (175 : ℚ), some 90] =
        [⟨0, TABLET_MODE, 175⟩, ⟨0, LAPTOP_MODE, 90⟩] ∧
      fl (fl (IIR_COEF * 90) + fl (sub_iir * (175 : ℚ))) = 158 ∧ (90 : ℚ) ≠ 158 := by
  have h1 : wait_for_mode_change LAPTOP_MODE [some (175 : ℚ), some 90] =
      call_state.returned ⟨0, TABLET_MODE, 175⟩ := by
    have h := fp_wait_loop_rejected_then_leaving LAPTOP_MODE (-1000 : ℚ) 175 [some 90]
      (by norm_num [band, opposite, is_laptop, is_tablet]) 0
    rw [if_pos rfl, iir_step_175_175] at h
    exact h
  have h2 : wait_for_mode_change TABLET_MODE [some (90 : ℚ)] =
      call_state.returned ⟨0, LAPTOP_MODE, 90⟩ := by
    have h := fp_wait_loop_rejected_then_leaving TABLET_MODE (-1000 : ℚ) 90 []
      (by norm_num [band, opposite, is_laptop, is_tablet]) 0
    rw [if_pos rfl, iir_step_90_90] at h
    exact h
  refine ⟨?_, iir_step_175_90, by norm_num⟩
  simp only [main_loop, h1, List.drop_succ_cons, List.drop_zero, zero_add, h2]

/-- C17, amended: the running average is local to one call of
`wait_for_mode_change` and starts from the flag value in every call.  When a
call returns, the loop of `main` calls again on the ticks that are left; after
the first accepted sample `a` of that call its running average is
`IIR_COEF * a + sub_iir * a` in double arithmetic, whatever the call before
left; and if that sample leaves the new mode, the call returns on it with that
running average. -/
theorem filter_reset_at_each_call (K : Type) [LinearOrderedField K] [FloorRing K] (n : ℕ)
    (M : mode_t) (ticks : List (Option K)) (r : mode_change K)
    (hr : wait_for_mode_change M ticks = call_state.returned r) :
    main_loop (n + 1) M ticks = r :: main_loop n r.mode (ticks.drop (r.tick + 1)) ∧
    (∀ (k : ℕ) (a : K) (rest : List (Option K)),
      ticks.drop (r.tick + 1) = List.replicate k none ++ some a :: rest →
      (wait_for_mode_change r.mode (List.replicate k none ++ [some a])).angle_avg =
        fl (fl (IIR_COEF * a) + fl (sub_iir * a)) ∧
      (band (opposite r.mode) a = true ∧ band r.mode a = false →
        main_loop (n + 2) M ticks =
          r :: ⟨k, opposite r.mode, fl (fl (IIR_COEF * a) + fl (sub_iir * a))⟩ ::
            main_loop n (opposite r.mode) rest)) := by
  have hstep : ∀ n, main_loop (n + 1) M ticks =
      r :: main_loop n r.mode (ticks.drop (r.tick + 1)) := by
    intro n
    simp only [main_loop, hr]
  refine ⟨hstep n, ?_⟩
  intro k a rest hdrop
  constructor
  · unfold wait_for_mode_change
    rw [fp_wait_loop_append r.mode _ _ (-1000) (-1000)
      (fp_wait_loop_all_rejected r.mode _ (by simp) (-1000)), fp_wait_loop_single, if_pos rfl]
    rfl
  · intro hl
    have h2 : wait_for_mode_change r.mode (List.replicate k none ++ some a :: rest) =
        call_state.returned ⟨k, opposite r.mode, fl (fl (IIR_COEF * a) + fl (sub_iir * a))⟩ := by
      unfold wait_for_mode_change
      rw [fp_wait_loop_rejected_then_leaving r.mode (-1000) a rest hl k, if_pos rfl]
      rfl
    rw [hstep (n + 1), hdrop]
    simp only [main_loop, h2, drop_rejected_then]

/-- C17, amended, from Laptop on the accepted samples 175 and 90. -/
theorem filter_reset_at_each_call_witness :
    wait_for_mode_change LAPTOP_MODE [some (175 : ℚ), some 90] =
      call_state.returned ⟨0, TABLET_MODE, 175⟩ ∧
    main_loop (0 + 1) LAPTOP_MODE [some (175 : ℚ), some 90] =
      (⟨0, TABLET_MODE, 175⟩ : mode_change ℚ) ::
        main_loop 0 TABLET_MODE ([some (175 : ℚ), some 90].drop (0 + 1)) :=
  have h : wait_for_mode_change LAPTOP_MODE [some (175 : ℚ), some 90] =
      call_state.returned ⟨0, TABLET_MODE, 175⟩ := by
    have h := fp_wait_loop_rejected_then_leaving LAPTOP_MODE (-1000 : ℚ) 175 [some 90]
      (by norm_num [band, opposite, is_laptop, is_tablet]) 0
    rw [if_pos rfl, iir_step_175_175] at h
    exact h
  ⟨h, (filter_reset_at_each_call ℚ 0 LAPTOP_MODE [some 175, some 90] ⟨0, TABLET_MODE, 175⟩ h).1⟩

end FilterClaims

end IEEE

/-! ## Lemmas on the estimator in double arithmetic -/

namespace IEEE

section EstimatorLemmas

variable {K : Type} [LinearOrderedField K] [FloorRing K]

lemma M_PI_val : (M_PI : K) = 884279719003555 / 2 ^ 48 := by
  unfold M_PI
  rw [fl_eval (3.14159265358979323846 : K) 1 (-51) 7074237752028440 (by norm_num)
    (by norm_num [abs_of_pos]) (by norm_num [abs_of_pos]) (by norm_num [abs_lt])]
  norm_num

lemma M_PI_pos : (0 : K) < M_PI := by
  rw [M_PI_val]
  norm_num

lemma fl_M_PI_mul_180 :
    fl ((884279719003555 / 2 ^ 48 : K) * 180) = 4974073419394997 / 2 ^ 43 := by
  rw [fl_eval ((884279719003555 / 2 ^ 48 : K) * 180) 9 (-43) 4974073419394997 (by norm_num)
    (by norm_num [abs_of_pos]) (by norm_num [abs_of_pos]) (by norm_num [abs_lt])]
  norm_num

lemma fl_div_M_PI :
    fl ((4974073419394997 / 2 ^ 43 : K) / (884279719003555 / 2 ^ 48)) = 180 := by
  rw [fl_eval ((4974073419394997 / 2 ^ 43 : K) / (884279719003555 / 2 ^ 48)) 7 (-45)
    6333186975989760 (by norm_num) (by norm_num [abs_of_pos]) (by norm_num [abs_of_pos])
    (by norm_num [abs_lt])]
  norm_num

/-- The conversion to degrees, `t * 180 / M_PI` in double arithmetic, of
`M_PI` itself is exactly 180. -/
lemma degrees_M_PI : fl (fl ((M_PI : K) * 180) / M_PI) = 180 := by
  rw [M_PI_val, fl_M_PI_mul_180, fl_div_M_PI]

/-- The conversion to degrees of a magnitude up to `M_PI` is at most 180. -/
lemma degrees_bounds (t : K) (h0 : 0 ≤ t) (h1 : t ≤ M_PI) :
    0 ≤ fl (fl (t * 180) / M_PI) ∧ fl (fl (t * 180) / M_PI) ≤ 180 := by
  have hpi : (0 : K) < M_PI := M_PI_pos
  constructor
  · exact fl_nonneg (div_nonneg (fl_nonneg (by linarith)) (le_of_lt hpi))
  · have h := fl_mono (div_le_div_of_nonneg_right
      (fl_mono (show t * 180 ≤ M_PI * 180 by linarith)) (le_of_lt hpi))
    rw [degrees_M_PI] at h
    exact h

omit [FloorRing K] in
lemma dbl_val_neg (d : dbl K) : d.neg.val = -d.val := by
  cases h : d.sign <;> simp [dbl.val, dbl.neg, h]

omit [FloorRing K] in
lemma dbl_val_bounds (d : dbl K) (h : 0 ≤ d.mag) : -d.mag ≤ d.val ∧ d.val ≤ d.mag := by
  cases hs : d.sign <;> simp only [dbl.val, hs, if_true, if_false, Bool.false_eq_true] <;>
    constructor <;> linarith

omit [FloorRing K] in
lemma dbl_abs_val (d : dbl K) (h : 0 ≤ d.mag) : |d.val| = d.mag := by
  cases hs : d.sign <;> simp only [dbl.val, hs, if_true, if_false, Bool.false_eq_true]
  · exact abs_of_nonneg h
  · rw [abs_neg]; exact abs_of_nonneg h

lemma dbl_mul_comm (a b : dbl K) : a.mul b = b.mul a := by
  simp only [dbl.mul, Bool.xor_comm, mul_comm]

lemma dbl_mul_neg_left (a b : dbl K) : a.neg.mul b = (a.mul b).neg := by
  cases a.sign <;> cases b.sign <;> simp [dbl.mul, dbl.neg]

lemma dbl_div_neg_left (a b : dbl K) : a.neg.div b = (a.div b).neg := by
  cases a.sign <;> cases b.sign <;> simp [dbl.div, dbl.neg]

/-- The two differences have the same magnitude. -/
lemma dbl_sub_mag (a b : dbl K) : (b.sub a).mag = (a.sub b).mag := by
  simp only [dbl.sub, dbl.add, dbl_val_neg]
  by_cases h : a.val + -b.val = 0
  · have h' : b.val + -a.val = 0 := by linarith
    rw [if_pos h, if_pos h']
  · have h' : ¬(b.val + -a.val = 0) := fun e => h (by linarith)
    rw [if_neg h, if_neg h']
    have e : b.val + -a.val = -(a.val + -b.val) := by ring
    simp only [e, abs_neg]

/-- A difference that is not zero changes sign when its terms are exchanged. -/
lemma dbl_sub_swap (a b : dbl K) (h : (a.sub b).val ≠ 0) : b.sub a = (a.sub b).neg := by
  simp only [dbl.sub, dbl.add, dbl_val_neg] at h ⊢
  by_cases h0 : a.val + -b.val = 0
  · rw [if_pos h0] at h
    simp [dbl.val] at h
  · have h' : ¬(b.val + -a.val = 0) := fun e => h0 (by linarith)
    rw [if_neg h0, if_neg h']
    have e : b.val + -a.val = -(a.val + -b.val) := by ring
    simp only [e, abs_neg, dbl.neg, dbl.mk.injEq, and_true]
    rcases lt_or_gt_of_ne h0 with hlt | hgt
    · simp [hlt, not_lt.2 (le_of_lt hlt)]
      linarith
    · simp [hgt, not_lt.2 (le_of_lt hgt)]
      linarith

omit [FloorRing K] in
lemma dbl_val_eq_zero_iff (d : dbl K) : d.val = 0 ↔ d.mag = 0 := by
  cases hs : d.sign <;> simp [dbl.val, hs]

lemma cdot_comm (a b : dbl K × dbl K) : cdot a b = cdot b a := by
  simp only [cdot, dbl_mul_comm]

/-- The `cdet` of the exchanged pair is the other difference of the same two
products. -/
lemma cdet_exchange (a b : dbl K × dbl K) :
    cdet a b = (b.2.mul a.1).sub (b.1.mul a.2) ∧ cdet b a = (b.1.mul a.2).sub (b.2.mul a.1) := by
  constructor
  · simp only [cdet, dbl_mul_comm a.1 b.2, dbl_mul_comm a.2 b.1]
  · simp only [cdet]

/-- The `int` that `sample_angle` returns. -/
lemma fp_sample_angle_fst (L : libm K) (v_base v_lid : dbl K × dbl K) (angle : dbl K) :
    (sample_angle L v_base v_lid angle).1 =
      if (L.cabs v_base < 1 ∨ L.cabs v_lid < 1) ∨
          (11 < L.cabs v_base ∨ 11 < L.cabs v_lid) then -1 else 0 := by
  have e : (10 : K) + 1 = 11 := by norm_num
  simp only [sample_angle, SKEW_LIMIT, gt_iff_lt, e]
  by_cases h1 : L.cabs v_base < 1 ∨ L.cabs v_lid < 1
  · rw [if_pos h1, if_pos (Or.inl h1)]
  · by_cases h2 : 11 < L.cabs v_base ∨ 11 < L.cabs v_lid
    · rw [if_neg h1, if_pos h2, if_pos (Or.inr h2)]
    · rw [if_neg h1, if_neg h2, if_neg (by tauto)]

/-- A rejected pair leaves the out-parameter as it was. -/
lemma fp_sample_angle_rejected (L : libm K) (v_base v_lid : dbl K × dbl K) (angle : dbl K)
    (h : (L.cabs v_base < 1 ∨ L.cabs v_lid < 1) ∨ (11 < L.cabs v_base ∨ 11 < L.cabs v_lid)) :
    sample_angle L v_base v_lid angle = (-1, angle) := by
  have e : (10 : K) + 1 = 11 := by norm_num
  simp only [sample_angle, SKEW_LIMIT, gt_iff_lt, e]
  by_cases h1 : L.cabs v_base < 1 ∨ L.cabs v_lid < 1
  · rw [if_pos h1]
  · rw [if_neg h1, if_pos (by tauto)]

/-- The conversion to degrees keeps the sign and converts the magnitude. -/
lemma degrees_eq (t : dbl K) :
    (t.mul (dbl.ofVal 180)).div (dbl.ofVal M_PI) =
      ⟨t.sign, fl (fl (t.mag * 180) / M_PI)⟩ := by
  have h1 : (dbl.ofVal (180 : K)) = ⟨false, 180⟩ := by
    simp only [dbl.ofVal, dbl.mk.injEq, decide_eq_false_iff_not, not_lt]
    exact ⟨by norm_num, abs_of_pos (by norm_num)⟩
  have h2 : (dbl.ofVal (M_PI : K)) = ⟨false, M_PI⟩ := by
    simp only [dbl.ofVal, dbl.mk.injEq, decide_eq_false_iff_not, not_lt]
    exact ⟨le_of_lt M_PI_pos, abs_of_pos M_PI_pos⟩
  rw [h1, h2]
  simp [dbl.mul, dbl.div]

/-- The value `sample_angle` writes on a pair it accepts. -/
lemma fp_sample_angle_accepted (L : libm K) (v_base v_lid : dbl K × dbl K) (angle : dbl K)
    (hb : 1 ≤ L.cabs v_base ∧ L.cabs v_base ≤ 11) (hl : 1 ≤ L.cabs v_lid ∧ L.cabs v_lid ≤ 11) :
    sample_angle L v_base v_lid angle =
      (0, ⟨(L.atan2 (cdet (normalize L v_lid) (normalize L v_base))
              (cdot (normalize L v_lid) (normalize L v_base))).sign,
            fl (fl ((L.atan2 (cdet (normalize L v_lid) (normalize L v_base))
              (cdot (normalize L v_lid) (normalize L v_base))).mag * 180) / M_PI)⟩) := by
  have e : (10 : K) + 1 = 11 := by norm_num
  have h1 : ¬(L.cabs v_base < 1 ∨ L.cabs v_lid < 1) := by
    simp only [not_or, not_lt]
    exact ⟨hb.1, hl.1⟩
  have h2 : ¬(11 < L.cabs v_base ∨ 11 < L.cabs v_lid) := by
    simp only [not_or, not_lt]
    exact ⟨hb.2, hl.2⟩
  rw [← degrees_eq]
  simp only [sample_angle, SKEW_LIMIT, gt_iff_lt, e, if_neg h1, if_neg h2, normalize]

lemma fl_one : fl (1 : K) = 1 := by
  rw [fl_eval (1 : K) 0 (-52) 4503599627370496 (by norm_num) (by norm_num)
    (by norm_num) (by norm_num)]
  norm_num

lemma fl_five : fl (5 : K) = 5 := by
  rw [fl_eval (5 : K) 2 (-50) 5629499534213120 (by norm_num) (by norm_num [abs_of_pos])
    (by norm_num [abs_of_pos]) (by norm_num)]
  norm_num

/-- The rounding of π is `M_PI`. -/
lemma fl_pi : fl Real.pi = (M_PI : ℝ) := by
  have h1 := Real.pi_gt_d20
  have h2 := Real.pi_lt_d20
  have hpos := Real.pi_pos
  norm_num at h1 h2
  rw [M_PI_val, fl_eval Real.pi 1 (-51) 7074237752028440 (by norm_num)
    (by rw [abs_of_pos hpos]; norm_num; linarith)
    (by rw [abs_of_pos hpos]; norm_num; linarith)
    (by rw [abs_lt]; norm_num; constructor <;> linarith)]
  norm_num

/-- The correctly rounding libm conforms. -/
lemma libm_rn_conforms : libm_rn.conforms := by
  refine ⟨?_, ?_, ?_, ?_⟩
  · intro y x hy hx
    simp only [libm_rn, if_pos hy, if_pos hx]
  · intro y x hy hx
    have hx' : ¬(x.val < 0 ∨ (x.val = 0 ∧ x.sign = true)) := by
      rintro (h | ⟨h1, h2⟩)
      · rcases hx with h' | ⟨h', -⟩ <;> linarith
      · rcases hx with h' | ⟨-, h'⟩
        · linarith
        · rw [h2] at h'
          exact absurd h' (by decide)
    simp only [libm_rn, if_pos hy, if_neg hx']
  · intro y x
    simp only [libm_rn]
    split_ifs
    · exact ⟨le_of_lt M_PI_pos, le_refl _⟩
    · exact ⟨le_refl _, le_of_lt M_PI_pos⟩
    · constructor
      · exact fl_nonneg (abs_nonneg _)
      · rw [← fl_pi]
        apply fl_mono
        rw [abs_le]
        exact ⟨le_of_lt (Complex.neg_pi_lt_arg _), Complex.arg_le_pi _⟩
  · intro y x
    have hv : y.neg.val = -y.val := dbl_val_neg y
    simp only [libm_rn, hv, neg_eq_zero]
    by_cases hy : y.val = 0
    · simp only [if_pos hy]
      split_ifs <;> rfl
    · simp only [if_neg hy]
      have hc : (⟨x.val, -y.val⟩ : ℂ) = (starRingEnd ℂ) ⟨x.val, y.val⟩ := by
        apply Complex.ext <;> simp
      have ha : |Complex.arg ⟨x.val, -y.val⟩| = |Complex.arg ⟨x.val, y.val⟩| := by
        rw [hc, Complex.arg_conj]
        split_ifs with hpi
        · rw [hpi]
        · rw [abs_neg]
      rw [ha]
      simp only [dbl.neg, dbl.mk.injEq, and_true]
      rcases lt_or_gt_of_ne hy with hlt | hgt
      · simp [hlt, not_lt.2 (le_of_lt hlt)]
      · simp [hgt, not_lt.2 (le_of_lt hgt)]

lemma libm_rn_cabs (v : dbl ℝ × dbl ℝ) :
    libm_rn.cabs v = fl (Real.sqrt (v.1.val ^ 2 + v.2.val ^ 2)) := rfl

lemma libm_rn_atan2_neg_zero_neg :
    libm_rn.atan2 ⟨true, 0⟩ ⟨true, 1⟩ = ⟨true, M_PI⟩ := by
  simp [libm_rn, dbl.val]

lemma libm_rn_atan2_pos_zero_neg :
    libm_rn.atan2 ⟨false, 0⟩ ⟨true, 1⟩ = ⟨false, M_PI⟩ := by
  simp [libm_rn, dbl.val]

/-- A number just above 11 rounds to 11. -/
lemma fl_just_above_11 (x : K) (h1 : 11 < x) (h2 : x < 11 + 1 / 2 ^ 50) : fl x = 11 := by
  have hpos : (0 : K) < x := by linarith
  rw [fl_eval x 3 (-49) 6192449487634432 (by norm_num)
    (by rw [abs_of_pos hpos]; norm_num; linarith)
    (by rw [abs_of_pos hpos]; norm_num at h2 ⊢; linarith)
    (by rw [abs_lt]; norm_num at h1 h2 ⊢; constructor <;> linarith)]
  norm_num

/-- The magnitude of (11, 2^-23) is above 11 and rounds to 11. -/
lemma cabs_11_tiny :
    (11 : ℝ) < Real.sqrt ((11 : ℝ) ^ 2 + (1 / 2 ^ 23) ^ 2) ∧
      fl (Real.sqrt ((11 : ℝ) ^ 2 + (1 / 2 ^ 23) ^ 2)) = 11 := by
  have h1 : (11 : ℝ) < Real.sqrt ((11 : ℝ) ^ 2 + (1 / 2 ^ 23) ^ 2) := by
    rw [Real.lt_sqrt (by norm_num)]
    norm_num
  have h2 : Real.sqrt ((11 : ℝ) ^ 2 + (1 / 2 ^ 23) ^ 2) < 11 + 1 / 2 ^ 50 := by
    rw [Real.sqrt_lt' (by norm_num)]
    norm_num
  exact ⟨h1, fl_just_above_11 _ h1 h2⟩

lemma sqrt_25 : Real.sqrt 25 = 5 := by
  rw [show (25 : ℝ) = 5 ^ 2 by norm_num, Real.sqrt_sq (by norm_num)]

/-- In the correctly rounding libm, a vector (±1, 0) has magnitude 1 and is its
own normalisation. -/
lemma normalize_unit_y (s : Bool) :
    libm_rn.cabs (⟨s, 1⟩, ⟨false, 0⟩) = 1 ∧
      normalize libm_rn (⟨s, 1⟩, ⟨false, 0⟩) = (⟨s, 1⟩, ⟨false, 0⟩) := by
  have hc : libm_rn.cabs (⟨s, 1⟩, ⟨false, 0⟩) = 1 := by
    rw [libm_rn_cabs]
    cases s <;> simp [dbl.val, fl_one]
  refine ⟨hc, ?_⟩
  simp only [normalize, hc]
  have h1 : dbl.ofVal (1 : ℝ) = ⟨false, 1⟩ := by simp [dbl.ofVal]
  rw [h1]
  simp [dbl.div, fl_one, fl_zero]

/-- In the correctly rounding libm, the vector (0, 1) has magnitude 1 and is
its own normalisation. -/
lemma normalize_unit_z :
    libm_rn.cabs (⟨false, 0⟩, ⟨false, 1⟩) = 1 ∧
      normalize libm_rn (⟨false, 0⟩, ⟨false, 1⟩) = (⟨false, 0⟩, ⟨false, 1⟩) := by
  have hc : libm_rn.cabs (⟨false, 0⟩, ⟨false, 1⟩) = 1 := by
    rw [libm_rn_cabs]
    simp [dbl.val, fl_one]
  refine ⟨hc, ?_⟩
  simp only [normalize, hc]
  have h1 : dbl.ofVal (1 : ℝ) = ⟨false, 1⟩ := by simp [dbl.ofVal]
  rw [h1]
  simp [dbl.div, fl_one, fl_zero]

lemma fl_3_div_5 : fl ((3 : K) / 5) = 5404319552844595 / 2 ^ 53 := by
  rw [fl_eval ((3 : K) / 5) (-1) (-53) 5404319552844595 (by norm_num)
    (by norm_num [abs_of_pos]) (by norm_num [abs_of_pos]) (by norm_num [abs_lt])]
  norm_num

lemma fl_4_div_5 : fl ((4 : K) / 5) = 3602879701896397 / 2 ^ 52 := by
  rw [fl_eval ((4 : K) / 5) (-1) (-53) 7205759403792794 (by norm_num)
    (by norm_num [abs_of_pos]) (by norm_num [abs_of_pos]) (by norm_num [abs_lt])]
  norm_num

/-- In the correctly rounding libm, the vectors (3, 4) and (-3, -4) have
magnitude 5; their normalisations carry the doubles nearest to 0.6 and 0.8. -/
lemma normalize_3_4 (s : Bool) :
    libm_rn.cabs (⟨s, 3⟩, ⟨s, 4⟩) = 5 ∧
      normalize libm_rn (⟨s, 3⟩, ⟨s, 4⟩) =
        (⟨s, 5404319552844595 / 2 ^ 53⟩, ⟨s, 3602879701896397 / 2 ^ 52⟩) := by
  have hc : libm_rn.cabs (⟨s, 3⟩, ⟨s, 4⟩) = 5 := by
    rw [libm_rn_cabs]
    have h : (dbl.val (⟨s, 3⟩ : dbl ℝ)) ^ 2 + (dbl.val (⟨s, 4⟩ : dbl ℝ)) ^ 2 = 25 := by
      cases s <;> norm_num [dbl.val]
    rw [h, sqrt_25, fl_five]
  refine ⟨hc, ?_⟩
  simp only [normalize, hc]
  have h1 : dbl.ofVal (5 : ℝ) = ⟨false, 5⟩ := by
    simp only [dbl.ofVal, dbl.mk.injEq, decide_eq_false_iff_not, not_lt]
    exact ⟨by norm_num, abs_of_pos (by norm_num)⟩
  rw [h1]
  simp only [dbl.div, Bool.xor_false, fl_3_div_5, fl_4_div_5]

lemma fl_sq_06 :
    fl ((5404319552844595 / 2 ^ 53 : K) * (5404319552844595 / 2 ^ 53)) =
      3242591731706757 / 2 ^ 53 := by
  rw [fl_eval ((5404319552844595 / 2 ^ 53 : K) * (5404319552844595 / 2 ^ 53)) (-2) (-54)
    6485183463413514 (by norm_num) (by norm_num [abs_of_pos]) (by norm_num [abs_of_pos])
    (by norm_num [abs_lt])]
  norm_num

lemma fl_sq_08 :
    fl ((3602879701896397 / 2 ^ 52 : K) * (3602879701896397 / 2 ^ 52)) =
      1441151880758559 / 2 ^ 51 := by
  rw [fl_eval ((3602879701896397 / 2 ^ 52 : K) * (3602879701896397 / 2 ^ 52)) (-1) (-53)
    5764607523034236 (by norm_num) (by norm_num [abs_of_pos]) (by norm_num [abs_of_pos])
    (by norm_num [abs_lt])]
  norm_num

/-- The sum of the two rounded squares, `1 + 2 ^ (-53)`, is a tie and rounds to
1. -/
lemma fl_sq_sum : fl (9007199254740993 / 9007199254740992 : K) = 1 := by
  rw [fl_eval_tie (9007199254740993 / 9007199254740992 : K) 0 (-52)
    4503599627370496 (by norm_num) (by norm_num [abs_of_pos]) (by norm_num [abs_of_pos])
    (by norm_num [abs_of_pos]) (by norm_num)]
  norm_num

/-- On the normalised (3, 4) and (-3, -4), in either order, `cdet` is `+0` and
`cdot` is -1. -/
lemma cdet_cdot_opposite (s : Bool) :
    cdet ((⟨s, 5404319552844595 / 2 ^ 53⟩ : dbl K), (⟨s, 3602879701896397 / 2 ^ 52⟩ : dbl K))
        (⟨!s, 5404319552844595 / 2 ^ 53⟩, ⟨!s, 3602879701896397 / 2 ^ 52⟩) = ⟨false, 0⟩ ∧
    cdot ((⟨s, 5404319552844595 / 2 ^ 53⟩ : dbl K), (⟨s, 3602879701896397 / 2 ^ 52⟩ : dbl K))
        (⟨!s, 5404319552844595 / 2 ^ 53⟩, ⟨!s, 3602879701896397 / 2 ^ 52⟩) = ⟨true, 1⟩ := by
  constructor
  · simp only [cdet, dbl.mul, dbl.sub, dbl.add, dbl.neg, dbl.val,
      mul_comm (3602879701896397 / 2 ^ 52 : K)]
    cases s <;> simp
  · simp only [cdot, dbl.mul, dbl.add, dbl.val, fl_sq_06, fl_sq_08]
    cases s <;> norm_num [abs_of_pos, fl_sq_sum]

/-- On the unit vectors (-1, 0) and (1, 0): `cdet` of lid and base is `-0`,
`cdot` is -1. -/
lemma cdet_cdot_unit_opposite :
    cdet ((⟨true, 1⟩ : dbl K), (⟨false, 0⟩ : dbl K)) (⟨false, 1⟩, ⟨false, 0⟩) = ⟨true, 0⟩ ∧
    cdot ((⟨true, 1⟩ : dbl K), (⟨false, 0⟩ : dbl K)) (⟨false, 1⟩, ⟨false, 0⟩) = ⟨true, 1⟩ := by
  constructor
  · simp [cdet, dbl.mul, dbl.sub, dbl.add, dbl.neg, dbl.val, fl_zero]
  · simp [cdot, dbl.mul, dbl.add, dbl.val, fl_zero, fl_one]

/-- With the correctly rounding libm, base (1, 0) and lid (-1, 0) give
exactly -180. -/
lemma sample_angle_minus_180 (angle : dbl ℝ) :
    sample_angle libm_rn (⟨false, 1⟩, ⟨false, 0⟩) (⟨true, 1⟩, ⟨false, 0⟩) angle =
      (0, ⟨true, 180⟩) := by
  have hb := normalize_unit_y false
  have hl := normalize_unit_y true
  rw [fp_sample_angle_accepted libm_rn _ _ angle (by rw [hb.1]; norm_num)
    (by rw [hl.1]; norm_num), hb.2, hl.2, cdet_cdot_unit_opposite.1, cdet_cdot_unit_opposite.2,
    libm_rn_atan2_neg_zero_neg, degrees_M_PI]

/-- With the correctly rounding libm, (3, 4) and (-3, -4) give 180 in either
order. -/
lemma sample_angle_opposite_180 (s : Bool) (angle : dbl ℝ) :
    sample_angle libm_rn (⟨!s, 3⟩, ⟨!s, 4⟩) (⟨s, 3⟩, ⟨s, 4⟩) angle = (0, ⟨false, 180⟩) := by
  have hb := normalize_3_4 (!s)
  have hl := normalize_3_4 s
  rw [fp_sample_angle_accepted libm_rn _ _ angle (by rw [hb.1]; norm_num)
    (by rw [hl.1]; norm_num), hb.2, hl.2, (cdet_cdot_opposite s).1, (cdet_cdot_opposite s).2,
    libm_rn_atan2_pos_zero_neg, degrees_M_PI]

end EstimatorLemmas

/-! ## The claims on the estimator in double arithmetic -/

section EstimatorClaims

/-- C6 as stated fails: the base (11, 2^-23) has a Euclidean magnitude above
11, yet with the lid (1, 0) `sample_angle` returns 0: `cabs` returns the
magnitude rounded, which is 11. -/
theorem sample_angle_magnitude_counterexample :
    (11 : ℝ) < Real.sqrt ((11 : ℝ) ^ 2 + (1 / 2 ^ 23) ^ 2) ∧
      (sample_angle libm_rn (⟨false, 11⟩, ⟨false, 1 / 2 ^ 23⟩) (⟨false, 1⟩, ⟨false, 0⟩)
        ⟨false, 0⟩).1 = 0 := by
  refine ⟨cabs_11_tiny.1, ?_⟩
  have hb : libm_rn.cabs (⟨false, 11⟩, ⟨false, 1 / 2 ^ 23⟩) = 11 := by
    rw [libm_rn_cabs]
    simp only [dbl.val, Bool.false_eq_true, if_false]
    exact cabs_11_tiny.2
  have hl := (normalize_unit_y false).1
  rw [fp_sample_angle_fst, hb, hl, if_neg (by norm_num)]

/-- C6, amended: `sample_angle` returns non-zero if and only if the magnitude
of the base vector or of the lid vector, as `cabs` returns it (a double, the
Euclidean magnitude rounded), is below 1 or above 11; a non-zero return leaves
the out-parameter as it was; and pairs whose magnitudes as returned by `cabs`
are each exactly 1 or exactly 11 are accepted. -/
theorem sample_angle_rejects_iff_cabs (K : Type) [LinearOrderedField K] [FloorRing K]
    (L : libm K) (v_base v_lid : dbl K × dbl K) (angle : dbl K) :
    ((sample_angle L v_base v_lid angle).1 ≠ 0 ↔
      (L.cabs v_base < 1 ∨ 11 < L.cabs v_base) ∨ (L.cabs v_lid < 1 ∨ 11 < L.cabs v_lid)) ∧
    ((sample_angle L v_base v_lid angle).1 ≠ 0 → (sample_angle L v_base v_lid angle).2 = angle) ∧
    ((L.cabs v_base = 1 ∨ L.cabs v_base = 11) → (L.cabs v_lid = 1 ∨ L.cabs v_lid = 11) →
      (sample_angle L v_base v_lid angle).1 = 0) := by
  have key : (sample_angle L v_base v_lid angle).1 ≠ 0 ↔
      (L.cabs v_base < 1 ∨ 11 < L.cabs v_base) ∨ (L.cabs v_lid < 1 ∨ 11 < L.cabs v_lid) := by
    rw [fp_sample_angle_fst]
    split_ifs with h
    · simp only [ne_eq, neg_eq_zero, one_ne_zero, not_false_eq_true, true_iff]
      tauto
    · simp only [ne_eq, not_true_eq_false, false_iff]
      tauto
  refine ⟨key, ?_, ?_⟩
  · intro h
    rw [fp_sample_angle_rejected L v_base v_lid angle (by have := key.1 h; tauto)]
  · intro hb hl
    by_contra hne
    rcases key.1 hne with (h | h) | (h | h) <;> rcases hb with hb | hb <;>
      rcases hl with hl | hl <;> linarith

/-- C6, amended, with the correctly rounding libm at base (1, 0) and lid
(-1, 0), both of magnitude exactly 1. -/
theorem sample_angle_rejects_iff_cabs_witness :
    (libm_rn.cabs (⟨false, 1⟩, ⟨false, 0⟩) = 1 ∨ libm_rn.cabs (⟨false, 1⟩, ⟨false, 0⟩) = 11) ∧
    (libm_rn.cabs (⟨true, 1⟩, ⟨false, 0⟩) = 1 ∨ libm_rn.cabs (⟨true, 1⟩, ⟨false, 0⟩) = 11) ∧
    (sample_angle libm_rn (⟨false, 1⟩, ⟨false, 0⟩) (⟨true, 1⟩, ⟨false, 0⟩) ⟨false, 0⟩).1 = 0 :=
  ⟨Or.inl (normalize_unit_y false).1, Or.inl (normalize_unit_y true).1,
    (sample_angle_rejects_iff_cabs ℝ libm_rn (⟨false, 1⟩, ⟨false, 0⟩) (⟨true, 1⟩, ⟨false, 0⟩)
      ⟨false, 0⟩).2.2 (Or.inl (normalize_unit_y false).1) (Or.inl (normalize_unit_y true).1)⟩

/-- C11 as stated fails: with the base (1, 0) and the lid (-1, 0), both of
magnitude 1, `cdet` is `-0`, `atan2 (-0, -1)` is `-M_PI`, and the angle written
is exactly -180, which is not above -180. -/
theorem sample_angle_range_counterexample :
    sample_angle libm_rn (⟨false, 1⟩, ⟨false, 0⟩) (⟨true, 1⟩, ⟨false, 0⟩) ⟨false, 0⟩ =
        (0, ⟨true, 180⟩) ∧
      ¬(-180 < (sample_angle libm_rn (⟨false, 1⟩, ⟨false, 0⟩) (⟨true, 1⟩, ⟨false, 0⟩)
        ⟨false, 0⟩).2.val) := by
  refine ⟨sample_angle_minus_180 _, ?_⟩
  rw [sample_angle_minus_180]
  simp [dbl.val]

/-- C11, amended: whenever `sample_angle` accepts a pair (returns 0), the angle
it writes is at least -180 and at most 180 degrees, for every libm whose
`atan2` conforms. -/
theorem sample_angle_range_closed (K : Type) [LinearOrderedField K] [FloorRing K]
    (L : libm K) (hL : L.conforms) (v_base v_lid : dbl K × dbl K) (angle : dbl K)
    (h : (sample_angle L v_base v_lid angle).1 = 0) :
    -180 ≤ (sample_angle L v_base v_lid angle).2.val ∧
      (sample_angle L v_base v_lid angle).2.val ≤ 180 := by
  rw [fp_sample_angle_fst] at h
  have hv : ¬((L.cabs v_base < 1 ∨ L.cabs v_lid < 1) ∨
      (11 < L.cabs v_base ∨ 11 < L.cabs v_lid)) := by
    intro hc
    rw [if_pos hc] at h
    norm_num at h
  simp only [not_or, not_lt] at hv
  rw [fp_sample_angle_accepted L v_base v_lid angle ⟨hv.1.1, hv.2.1⟩ ⟨hv.1.2, hv.2.2⟩]
  obtain ⟨h0, h1⟩ := hL.2.2.1 (cdet (normalize L v_lid) (normalize L v_base))
    (cdot (normalize L v_lid) (normalize L v_base))
  obtain ⟨d0, d1⟩ := degrees_bounds _ h0 h1
  have hb := dbl_val_bounds (K := K) ⟨(L.atan2 (cdet (normalize L v_lid) (normalize L v_base))
    (cdot (normalize L v_lid) (normalize L v_base))).sign,
    fl (fl ((L.atan2 (cdet (normalize L v_lid) (normalize L v_base))
      (cdot (normalize L v_lid) (normalize L v_base))).mag * 180) / M_PI)⟩ d0
  simp only at hb ⊢
  constructor <;> linarith [hb.1, hb.2]

/-- C11, amended, with the correctly rounding libm at base (1, 0) and lid
(-1, 0): accepted, and the angle, -180, is within the closed range. -/
theorem sample_angle_range_closed_witness :
    libm_rn.conforms ∧
    (sample_angle libm_rn (⟨false, 1⟩, ⟨false, 0⟩) (⟨true, 1⟩, ⟨false, 0⟩) ⟨false, 0⟩).1 = 0 ∧
    -180 ≤ (sample_angle libm_rn (⟨false, 1⟩, ⟨false, 0⟩) (⟨true, 1⟩, ⟨false, 0⟩)
      ⟨false, 0⟩).2.val ∧
    (sample_angle libm_rn (⟨false, 1⟩, ⟨false, 0⟩) (⟨true, 1⟩, ⟨false, 0⟩) ⟨false, 0⟩).2.val
      ≤ 180 :=
  have h : (sample_angle libm_rn (⟨false, 1⟩, ⟨false, 0⟩) (⟨true, 1⟩, ⟨false, 0⟩)
      ⟨false, 0⟩).1 = 0 := by
    rw [sample_angle_minus_180]
  ⟨libm_rn_conforms, h, sample_angle_range_closed ℝ libm_rn libm_rn_conforms _ _ _ h⟩

/-- C9 as stated fails: the base (3, 4) and the lid (-3, -4), both of magnitude
5, point in exactly opposite directions, and the estimate is 180 in both
orders, not 180 and -180. -/
theorem sample_angle_antisymmetry_counterexample :
    sample_angle libm_rn (⟨false, 3⟩, ⟨false, 4⟩) (⟨true, 3⟩, ⟨true, 4⟩) ⟨false, 0⟩ =
        (0, ⟨false, 180⟩) ∧
    sample_angle libm_rn (⟨true, 3⟩, ⟨true, 4⟩) (⟨false, 3⟩, ⟨false, 4⟩) ⟨false, 0⟩ =
        (0, ⟨false, 180⟩) ∧
    (sample_angle libm_rn (⟨false, 3⟩, ⟨false, 4⟩) (⟨true, 3⟩, ⟨true, 4⟩) ⟨false, 0⟩).2.val ≠
      -(sample_angle libm_rn (⟨true, 3⟩, ⟨true, 4⟩) (⟨false, 3⟩, ⟨false, 4⟩) ⟨false, 0⟩).2.val := by
  have e1 := sample_angle_opposite_180 true ⟨false, 0⟩
  have e2 := sample_angle_opposite_180 false ⟨false, 0⟩
  simp only [Bool.not_true, Bool.not_false] at e1 e2
  refine ⟨e1, e2, ?_⟩
  rw [e1, e2]
  norm_num [dbl.val]

/-- C9, amended: for all vectors `a` and `b` whose magnitudes as returned by
`cabs` are in [1, 11], both orders are accepted; the estimate with (base, lid)
= (a, b) is the negation of the estimate with (base, lid) = (b, a) whenever the
`cdet` computed on the normalised vectors is not zero or the `cdot` computed is
positive; and when the `cdet` computed is zero and the `cdot` computed is
negative, as for vectors in exactly opposite directions, each of the two
estimates is 180 or -180.  For every libm whose `atan2` conforms. -/
theorem sample_angle_antisymmetric_unless_cdet_zero (K : Type) [LinearOrderedField K]
    [FloorRing K] (L : libm K) (hL : L.conforms) (a b : dbl K × dbl K) (x y : dbl K)
    (ha : 1 ≤ L.cabs a ∧ L.cabs a ≤ 11) (hb : 1 ≤ L.cabs b ∧ L.cabs b ≤ 11) :
    ((sample_angle L a b x).1 = 0 ∧ (sample_angle L b a y).1 = 0) ∧
    (((cdet (normalize L b) (normalize L a)).val ≠ 0 ∨
        0 < (cdot (normalize L b) (normalize L a)).val) →
      (sample_angle L a b x).2.val = -(sample_angle L b a y).2.val) ∧
    (((cdet (normalize L b) (normalize L a)).val = 0 ∧
        (cdot (normalize L b) (normalize L a)).val < 0) →
      |(sample_angle L a b x).2.val| = 180 ∧ |(sample_angle L b a y).2.val| = 180) := by
  obtain ⟨hneg, hpos, -, hodd⟩ := hL
  rw [fp_sample_angle_accepted L a b x ha hb, fp_sample_angle_accepted L b a y hb ha]
  have hX : cdot (normalize L a) (normalize L b) = cdot (normalize L b) (normalize L a) :=
    cdot_comm _ _
  have hY1 : cdet (normalize L b) (normalize L a) =
      ((normalize L b).1.mul (normalize L a).2).sub ((normalize L b).2.mul (normalize L a).1) :=
    rfl
  have hY2 : cdet (normalize L a) (normalize L b) =
      ((normalize L b).2.mul (normalize L a).1).sub ((normalize L b).1.mul (normalize L a).2) :=
    (cdet_exchange (normalize L a) (normalize L b)).1
  have hmag : (cdet (normalize L a) (normalize L b)).mag =
      (cdet (normalize L b) (normalize L a)).mag := by
    rw [hY1, hY2]
    exact dbl_sub_mag _ _
  rw [hX]
  refine ⟨⟨rfl, rfl⟩, ?_, ?_⟩
  · rintro (hne | hgt)
    · have hswap : cdet (normalize L a) (normalize L b) =
          (cdet (normalize L b) (normalize L a)).neg := by
        rw [hY1, hY2]
        exact dbl_sub_swap _ _ (by rw [← hY1]; exact hne)
      rw [hswap, hodd]
      simp only [dbl.neg]
      cases (L.atan2 (cdet (normalize L b) (normalize L a))
        (cdot (normalize L b) (normalize L a))).sign <;> simp [dbl.val]
    · by_cases hz : (cdet (normalize L b) (normalize L a)).val = 0
      · have hz' : (cdet (normalize L a) (normalize L b)).val = 0 := by
          rw [dbl_val_eq_zero_iff] at hz ⊢
          rw [hmag, hz]
        rw [hpos _ _ hz (Or.inl hgt), hpos _ _ hz' (Or.inl hgt)]
        simp [dbl.val, fl_zero]
      · have hswap : cdet (normalize L a) (normalize L b) =
            (cdet (normalize L b) (normalize L a)).neg := by
          rw [hY1, hY2]
          exact dbl_sub_swap _ _ (by rw [← hY1]; exact hz)
        rw [hswap, hodd]
        simp only [dbl.neg]
        cases (L.atan2 (cdet (normalize L b) (normalize L a))
          (cdot (normalize L b) (normalize L a))).sign <;> simp [dbl.val]
  · rintro ⟨hz, hlt⟩
    have hz' : (cdet (normalize L a) (normalize L b)).val = 0 := by
      rw [dbl_val_eq_zero_iff] at hz ⊢
      rw [hmag, hz]
    rw [hneg _ _ hz (Or.inl hlt), hneg _ _ hz' (Or.inl hlt)]
    simp only [degrees_M_PI]
    constructor <;> exact dbl_abs_val _ (by norm_num)

/-- C9, amended, with the correctly rounding libm at a = (1, 0) and b = (0, 1),
both of magnitude 1. -/
theorem sample_angle_antisymmetric_unless_cdet_zero_witness :
    libm_rn.conforms ∧
    (1 ≤ libm_rn.cabs (⟨false, 1⟩, ⟨false, 0⟩) ∧ libm_rn.cabs (⟨false, 1⟩, ⟨false, 0⟩) ≤ 11) ∧
    (1 ≤ libm_rn.cabs (⟨false, 0⟩, ⟨false, 1⟩) ∧ libm_rn.cabs (⟨false, 0⟩, ⟨false, 1⟩) ≤ 11) ∧
    (sample_angle libm_rn (⟨false, 1⟩, ⟨false, 0⟩) (⟨false, 0⟩, ⟨false, 1⟩) ⟨false, 0⟩).1 = 0 ∧
    (sample_angle libm_rn (⟨false, 0⟩, ⟨false, 1⟩) (⟨false, 1⟩, ⟨false, 0⟩) ⟨false, 0⟩).1 = 0 :=
  have ha : 1 ≤ libm_rn.cabs (⟨false, 1⟩, ⟨false, 0⟩) ∧
      libm_rn.cabs (⟨false, 1⟩, ⟨false, 0⟩) ≤ 11 := by
    rw [(normalize_unit_y false).1]
    norm_num
  have hb : 1 ≤ libm_rn.cabs (⟨false, 0⟩, ⟨false, 1⟩) ∧
      libm_rn.cabs (⟨false, 0⟩, ⟨false, 1⟩) ≤ 11 := by
    rw [normalize_unit_z.1]
    norm_num
  ⟨libm_rn_conforms, ha, hb,
    (sample_angle_antisymmetric_unless_cdet_zero ℝ libm_rn libm_rn_conforms _ _ ⟨false, 0⟩
      ⟨false, 0⟩ ha hb).1⟩

end EstimatorClaims

end IEEE

end KevinTabletMode
